import Mathlib

/-!
# EmployeeAPI: the file-backed employee store of `main.go`

A shallow embedding of the record store (`getAllEmployees`, `createEmployee`,
`updateEmployee`, `deleteEmployee`), of the row codec it uses, of the search
filter and of the HTTP handlers, followed by the properties proved about them.

Modelling decisions.

* A Go `string` is a Lean `String`; a Go `int` is an `Int` in the 64-bit range.
* The persisted file is the sequence of its characters, `none` standing for
  "the file does not exist". `csv.Writer.Write` adds the line of a record at the
  end of it, `os.Create` leaves an empty file, and `csv.Reader.ReadAll` is the
  reader of `encoding/csv` with its default settings, character by character:
  quoted fields, CR LF read as LF, blank lines skipped, and the
  `FieldsPerRecord = 0` rule (every record must have as many fields as the first
  one). The file is taken to be valid UTF-8, a character of the model being a
  code point. I/O failures other than the absence of the file are not modelled.
* `strconv.Atoi` and `strconv.Itoa` are modelled in full, for a 64-bit `int`.
  The `float64` side of `strconv` is a parameter (`Strconv`) and so is
  `unicode.ToLower` (the argument `lower` of the search functions).
* A `map[string]interface{}` is the list of its entries, in the order in which
  the `range` loop visits them.
* A handler takes what `mux.Vars` and the JSON decoder give it and returns what
  it sends, with the file state it leaves when it calls a mutation of the store.
  A `[]Employee` is a list; the slices of the program are nil exactly when they
  are empty. The `float64` values that `encoding/json` refuses (NaN and the
  infinities) are a parameter (`unsupported`).
-/

namespace EmployeeAPI

/-! ## `strconv`: integers -/

/-- The two error kinds of `strconv.NumError`: `ErrSyntax` and `ErrRange`. -/
inductive NumError where
  | invalidSyntax
  | outOfRange
deriving DecidableEq

/-- The largest `uint64`, `1<<64 - 1`. -/
def maxUint64 : Nat := 18446744073709551615

/-- The bound `maxUint64/10 + 1` from which `n*10` overflows in `ParseUint`. -/
def cutoff10 : Nat := 1844674407370955162

/-- The smallest and one past the largest Go `int` (64-bit). -/
def intCutoff : Nat := 9223372036854775808

/-- A Go `int` value. -/
def isGoInt (i : Int) : Prop := -(intCutoff : Int) ≤ i ∧ i < (intCutoff : Int)

instance (i : Int) : Decidable (isGoInt i) := by unfold isGoInt; infer_instance

/-- The digit loop of `strconv.ParseUint(s, 10, 64)`: a character that is not a
decimal digit is a syntax error with value 0, and the first overflow returns
`maxUint64` with a range error at once, without looking at the rest. -/
def parseUintLoop : List Char → Nat → Nat × Option NumError
  | [], n => (n, none)
  | c :: cs, n =>
    if 48 ≤ c.toNat ∧ c.toNat ≤ 57 then
      if cutoff10 ≤ n then (maxUint64, some .outOfRange)
      else if maxUint64 < n * 10 + (c.toNat - 48) then (maxUint64, some .outOfRange)
      else parseUintLoop cs (n * 10 + (c.toNat - 48))
    else (0, some .invalidSyntax)

/-- The function `strconv.ParseUint(s, 10, 64)`. -/
def ParseUint (s : List Char) : Nat × Option NumError :=
  match s with
  | [] => (0, some .invalidSyntax)
  | _ => parseUintLoop s 0

/-- The range check that ends `strconv.ParseInt(s, 10, 0)`, on the unsigned
value `un` and the sign. -/
def clampInt (neg : Bool) (un : Nat) : Int × Option NumError :=
  if !neg && intCutoff ≤ un then ((intCutoff : Int) - 1, some .outOfRange)
  else if neg && intCutoff < un then (-(intCutoff : Int), some .outOfRange)
  else (if neg then -(un : Int) else (un : Int), none)

/-- The function `strconv.ParseInt(s, 10, 0)` on a 64-bit platform. -/
def ParseInt (s : List Char) : Int × Option NumError :=
  match s with
  | [] => (0, some .invalidSyntax)
  | c :: cs =>
    let neg := c = '-'
    let rest := if c = '+' ∨ c = '-' then cs else c :: cs
    match ParseUint rest with
    | (_, some .invalidSyntax) => (0, some .invalidSyntax)
    | (un, _) => clampInt neg un

/-- The function `strconv.Atoi`: the value and the error (its fast path for
short strings returns what `ParseInt` returns). -/
def Atoi (s : String) : Int × Option NumError := ParseInt s.data

/-- The decimal digit of `d < 10`. -/
def digitChar (d : Nat) : Char := Char.ofNat (48 + d)

/-- The decimal digits of `n`, most significant first, in front of `acc`. -/
def formatUintAux : Nat → Nat → List Char → List Char
  | 0, _, acc => acc
  | fuel + 1, n, acc =>
    if n / 10 = 0 then digitChar (n % 10) :: acc
    else formatUintAux fuel (n / 10) (digitChar (n % 10) :: acc)

/-- The decimal text of a natural number, `"0"` for zero. -/
def formatUint (n : Nat) : List Char := formatUintAux (n + 1) n []

/-- The function `strconv.Itoa`, which is also what `%d` prints. -/
def Itoa (i : Int) : String :=
  match i with
  | .ofNat n => ⟨formatUint n⟩
  | .negSucc n => ⟨'-' :: formatUint (n + 1)⟩

/-! ## `strconv`: floats -/

/-- The `float64` side of `strconv`, which belongs to the Go standard library:
the type of `float64` values, `ParseFloat(s, 64)` (the value, or the text of the
error it returns) and `FormatFloat(x, 'f', -1, 64)`, with the law that makes
the latter the shortest text that parses back to `x`. -/
structure Strconv where
  /-- The values of Go's `float64`. -/
  Float64 : Type
  /-- The call `strconv.ParseFloat(s, 64)`. -/
  ParseFloat : String → Except String Float64
  /-- The call `strconv.FormatFloat(x, 'f', -1, 64)`. -/
  FormatFloat : Float64 → String
  /-- The text printed for `x` parses back to `x`. -/
  parse_format : ∀ x, ParseFloat (FormatFloat x) = .ok x

/-! ## Data model -/

/-- The struct `Employee`. -/
structure Employee (F : Type) where
  ID : Int
  FirstName : String
  LastName : String
  Email : String
  Password : String
  PhoneNo : String
  Role : String
  Salary : F
  Birthdate : String

/-- A Go `error` value of the store: the error of `os.Open` on an absent file,
the `csv.ErrFieldCount` error of `ReadAll` (with the index of the record that
raised it), the `csv.ErrBareQuote` (`bare` true) or `csv.ErrQuote` error of
`ReadAll`, or an error built by `fmt.Errorf`, given by its message. -/
inductive GoError where
  | notExist
  | fieldCount (record : Nat)
  | quote (bare : Bool)
  | errorf (msg : String)
deriving DecidableEq

/-- A row of the file: the fields of one CSV record. -/
abbrev Record := List String

/-- The content of `employeesData.csv`: its characters, in file order. -/
abbrev File := List Char

/-- The state of the file system at `csvFilename`: `none` when the file does
not exist. -/
abbrev FileState := Option File

/-- The header row written by the store. -/
def header : Record :=
  ["ID", "FirstName", "LastName", "Email", "Password", "PhoneNo", "Role", "Salary", "Birthdate"]

/-! ## `encoding/csv`: the writer -/

/-- The function `unicode.IsSpace`. -/
def isSpace (c : Char) : Bool :=
  (9 ≤ c.toNat ∧ c.toNat ≤ 13) ∨ c.toNat = 32 ∨ c.toNat = 133 ∨ c.toNat = 160 ∨
  c.toNat = 5760 ∨ (8192 ≤ c.toNat ∧ c.toNat ≤ 8202) ∨ c.toNat = 8232 ∨ c.toNat = 8233 ∨
  c.toNat = 8239 ∨ c.toNat = 8287 ∨ c.toNat = 12288

/-- The characters that make `csv.Writer` quote the field that holds one of
them: the newline, the carriage return, the quote and the comma. -/
def isSpecial (c : Char) : Bool := c = '\n' || c = '\r' || c = '"' || c = ','

/-- The method `fieldNeedsQuotes` of `csv.Writer`: the empty field is not
quoted; the field `\.`, a field with a special character and a field that
starts with a space are. -/
def fieldNeedsQuotes (field : List Char) : Bool :=
  match field with
  | [] => false
  | c :: rest =>
    (c :: rest) = ['\\', '.'] || (c :: rest).any isSpecial || isSpace c

/-- The inside of a quoted field as `csv.Writer` writes it: a quote is doubled,
every other character (CR and LF too, `UseCRLF` being false) is written as it
is. -/
def escapeQuotes : List Char → List Char
  | [] => []
  | c :: rest => if c = '"' then '"' :: '"' :: escapeQuotes rest else c :: escapeQuotes rest

/-- One field as `csv.Writer.Write` writes it. -/
def writeField (field : List Char) : List Char :=
  if fieldNeedsQuotes field then '"' :: (escapeQuotes field ++ ['"']) else field

/-- The fields of a record as `csv.Writer.Write` writes them, a comma between
two fields. -/
def writeFields : List String → List Char
  | [] => []
  | [field] => writeField field.data
  | field :: rest => writeField field.data ++ ',' :: writeFields rest

/-- The line that `csv.Writer.Write(record)` writes: the fields and a newline. -/
def formatRecord (record : Record) : List Char := writeFields record ++ ['\n']

/-- The call `writer.Write(record)` followed by the deferred `Flush`, on a file
opened with `O_APPEND` or just created: the line of the record is added at the
end of the characters of the file. -/
def csvWrite (file : File) (record : Record) : File := file ++ formatRecord record

/-! ## `encoding/csv`: the reader -/

/-- Where the reader stands in the line it parses: at the start of a line with
no field of a record read yet, at the start of a field after a comma, inside a
field that did not start with a quote, inside a quoted field, or just after a
quote met inside a quoted field. -/
inductive ScanMode where
  | lineStart
  | fieldStart
  | unquoted
  | quoted
  | quoteEnd
deriving DecidableEq

/-- The state of the reader between two characters: `cr` says that a carriage
return was read and is held until the next character tells whether it ends the
line (`readLine` turns CR LF into LF and drops a CR that ends the file);
`field` and `fields` are the current field and the fields of the current record
read so far, `records` the records read, `err` the error that stopped the
reader. -/
structure ScanState where
  mode : ScanMode
  cr : Bool
  field : List Char
  fields : List String
  records : List Record
  err : Option GoError

/-- The end of a field at a comma. -/
def endField (s : ScanState) : ScanState :=
  { s with mode := .fieldStart, cr := false, field := [],
           fields := s.fields ++ [String.mk s.field] }

/-- The end of a field at the end of the line: the record is complete. -/
def endRecord (s : ScanState) : ScanState :=
  { s with mode := .lineStart, cr := false, field := [], fields := [],
           records := s.records ++ [s.fields ++ [String.mk s.field]] }

/-- A character of a field that did not start with a quote: the field goes to
the next comma or to the end of the line, and a quote in it is
`ErrBareQuote`. -/
def stepUnquoted (s : ScanState) (c : Char) : ScanState :=
  if c = '\n' then endRecord s
  else if c = '\r' then { s with mode := .unquoted, cr := true }
  else if c = '"' then { s with err := some (.quote true) }
  else if c = ',' then endField s
  else { s with mode := .unquoted, field := s.field ++ [c] }

/-- A character inside a quoted field: everything up to the next quote,
newlines included, belongs to the field. -/
def stepQuoted (s : ScanState) (c : Char) : ScanState :=
  if c = '"' then { s with mode := .quoteEnd }
  else if c = '\r' then { s with cr := true }
  else { s with field := s.field ++ [c] }

/-- One character of the file in `readRecord` of `csv.Reader`. A line that is
empty, or holds CR alone, is skipped; a field that starts with a quote is a
quoted field; a held CR is dropped before LF and kept before anything else;
after the quote that closes a quoted field come a quote (a doubled quote is one
quote of the field), a comma or the end of the line, anything else being
`ErrQuote`. After an error nothing is read. -/
def step (s : ScanState) (c : Char) : ScanState :=
  match s.err with
  | some _ => s
  | none =>
    match s.mode, s.cr with
    | .lineStart, false =>
      if c = '\n' then s
      else if c = '\r' then { s with cr := true }
      else if c = '"' then { s with mode := .quoted }
      else stepUnquoted s c
    | .lineStart, true =>
      if c = '\n' then { s with cr := false }
      else stepUnquoted { s with cr := false, field := s.field ++ ['\r'] } c
    | .fieldStart, _ =>
      if c = '"' then { s with mode := .quoted } else stepUnquoted s c
    | .unquoted, false => stepUnquoted s c
    | .unquoted, true =>
      if c = '\n' then endRecord s
      else stepUnquoted { s with cr := false, field := s.field ++ ['\r'] } c
    | .quoted, false => stepQuoted s c
    | .quoted, true =>
      if c = '\n' then { s with cr := false, field := s.field ++ ['\n'] }
      else stepQuoted { s with cr := false, field := s.field ++ ['\r'] } c
    | .quoteEnd, false =>
      if c = '"' then { s with mode := .quoted, field := s.field ++ ['"'] }
      else if c = ',' then endField s
      else if c = '\n' then endRecord s
      else if c = '\r' then { s with cr := true }
      else { s with err := some (.quote false) }
    | .quoteEnd, true =>
      if c = '\n' then endRecord s else { s with err := some (.quote false) }

/-- The reader before the first character. -/
def scanStart : ScanState := ⟨.lineStart, false, [], [], [], none⟩

/-- The end of the file: a line without a final newline ends its record (a held
CR is dropped), and a quoted field that is still open is `ErrQuote`. -/
def finish (s : ScanState) : List Record × Option GoError :=
  match s.err with
  | some err => (s.records, some err)
  | none =>
    match s.mode with
    | .lineStart => (s.records, none)
    | .quoted => (s.records, some (.quote false))
    | _ => ((endRecord s).records, none)

/-- The records that the successive calls of `readRecord` parse from the file,
and the quote error that stops them, if any. -/
def csvScan (file : File) : List Record × Option GoError :=
  finish (file.foldl step scanStart)

/-- The field-count rule of `csv.Reader` over the records parsed, with the
reader's default settings: `fieldsPerRecord` starts at 0, is set to the field
count of the first record, and every later record with another field count is
an `ErrFieldCount` error that makes `ReadAll` return no record at all. `k` is
the index of the record. -/
def readAllLoop : Nat → Nat → List Record → Except GoError (List Record)
  | _, _, [] => .ok []
  | fieldsPerRecord, k, record :: rest =>
    if 0 < fieldsPerRecord ∧ record.length ≠ fieldsPerRecord then .error (.fieldCount k)
    else
      match readAllLoop (if fieldsPerRecord = 0 then record.length else fieldsPerRecord)
          (k + 1) rest with
      | .error err => .error err
      | .ok records => .ok (record :: records)

/-- The call `csv.NewReader(file).ReadAll()`: the first error in file order, a
field-count error of a record parsed or the quote error that stopped the
parsing, and the records of the file when there is none. -/
def csvReadAll (file : File) : Except GoError (List Record) :=
  match csvScan file with
  | (records, quoteError) =>
    match readAllLoop 0 0 records with
    | .error err => .error err
    | .ok rows =>
      match quoteError with
      | some err => .error err
      | none => .ok rows

/-- The characters of a field as the reader gives them back after the writer
wrote them: a CR that stands before a LF is dropped. -/
def readBackChars : List Char → List Char
  | [] => []
  | c :: rest =>
    if c = '\r' ∧ rest.head? = some '\n' then readBackChars rest else c :: readBackChars rest

/-- A field as the reader gives it back after the writer wrote it. -/
def readBack (field : String) : String := ⟨readBackChars field.data⟩

/-! ## The row codec -/

/-- The body of the loop of `getAllEmployees` for one record with at least 9
fields: `Atoi` with its error discarded, `ParseFloat` whose error is fatal. -/
def decodeRecord (sc : Strconv) (record : Record) : Except GoError (Employee sc.Float64) :=
  let id := (Atoi (record.getD 0 "")).1
  match sc.ParseFloat (record.getD 7 "") with
  | .error err =>
    .error (.errorf ("error parsing salary for employee with ID " ++ Itoa id ++ ": " ++ err))
  | .ok salary =>
    .ok { ID := id
          FirstName := record.getD 1 ""
          LastName := record.getD 2 ""
          Email := record.getD 3 ""
          Password := record.getD 4 ""
          PhoneNo := record.getD 5 ""
          Role := record.getD 6 ""
          Salary := salary
          Birthdate := record.getD 8 "" }

/-- The record written for an employee by `createEmployee`, `updateEmployee`
and `deleteEmployee`. -/
def encodeRecord (sc : Strconv) (employee : Employee sc.Float64) : Record :=
  [Itoa employee.ID, employee.FirstName, employee.LastName, employee.Email, employee.Password,
   employee.PhoneNo, employee.Role, sc.FormatFloat employee.Salary, employee.Birthdate]

/-! ## The store -/

/-- The loop of `getAllEmployees` over the records after the first: a record
with fewer than 9 fields is skipped, a salary that does not parse ends the
load with an error. -/
def decodeLoop (sc : Strconv) : List Record → Except GoError (List (Employee sc.Float64))
  | [] => .ok []
  | record :: rest =>
    if record.length < 9 then decodeLoop sc rest
    else
      match decodeRecord sc record with
      | .error err => .error err
      | .ok employee =>
        match decodeLoop sc rest with
        | .error err => .error err
        | .ok employees => .ok (employee :: employees)

/-- The function `getAllEmployees`. -/
def getAllEmployees (sc : Strconv) (fs : FileState) :
    Except GoError (List (Employee sc.Float64)) :=
  match fs with
  | none => .error .notExist
  | some file =>
    match csvReadAll file with
    | .error err => .error err
    | .ok records => decodeLoop sc (records.drop 1)

/-- The duplicate scan of `createEmployee`: `b` starts `true` and becomes
`false` at every employee with the candidate's id. -/
def idIsFree {F : Type} (employees : List (Employee F)) (id : Int) : Bool :=
  employees.foldl (fun b emp => if emp.ID = id then false else b) true

/-- The function `createEmployee`: the error it returns (`none` for `nil`) and
the file state it leaves. -/
def createEmployee (sc : Strconv) (employee : Employee sc.Float64) (fs : FileState) :
    Option GoError × FileState :=
  let fileExists := fs.isSome
  match getAllEmployees sc fs with
  | .error err => (some err, fs)
  | .ok employees =>
    let file := fs.getD []
    let file := if !fileExists then csvWrite file header else file
    if idIsFree employees employee.ID then
      (none, some (csvWrite file (encodeRecord sc employee)))
    else (none, some file)

/-- The search for `foundIndex` in `updateEmployee` and `deleteEmployee`: the
index of the first employee with the id, `none` for `-1`. -/
def findIndex {F : Type} (employees : List (Employee F)) (employeeID : Int) : Option Nat :=
  match employees with
  | [] => none
  | employee :: rest =>
    if employee.ID = employeeID then some 0
    else (findIndex rest employeeID).map (· + 1)

/-- A value of a decoded JSON object, as `updateEmployee` sees it: its dynamic
type is `string`, `float64`, `bool`, nil, a slice or a map (the content of the
last two is never inspected). -/
inductive Value (F : Type) where
  | str (s : String)
  | float64 (x : F)
  | bool (b : Bool)
  | null
  | array
  | object

/-- One turn of the `switch key` of `updateEmployee` on an employee. -/
def applyField {F : Type} (key : String) (value : Value F) (e : Employee F) : Employee F :=
  if key = "firstName" then
    match value with
    | .str firstName => if firstName ≠ "" then { e with FirstName := firstName } else e
    | _ => e
  else if key = "lastName" then
    match value with
    | .str lastName => if lastName ≠ "" then { e with LastName := lastName } else e
    | _ => e
  else if key = "email" then
    match value with
    | .str email => if email ≠ "" then { e with Email := email } else e
    | _ => e
  else if key = "password" then
    match value with
    | .str password => if password ≠ "" then { e with Password := password } else e
    | _ => e
  else if key = "phoneNo" then
    match value with
    | .str phoneNo => if phoneNo ≠ "" then { e with PhoneNo := phoneNo } else e
    | _ => e
  else if key = "role" then
    match value with
    | .str role => if role ≠ "" then { e with Role := role } else e
    | _ => e
  else if key = "salary" then
    match value with
    | .float64 salary => { e with Salary := salary }
    | _ => e
  else if key = "birthdate" then
    match value with
    | .str birthdate => if birthdate ≠ "" then { e with Birthdate := birthdate } else e
    | _ => e
  else e

/-- The assignment to `employees[foundIndex]`: the element at the index is
replaced by its image. -/
def modifyAt {α : Type} (f : α → α) : Nat → List α → List α
  | _, [] => []
  | 0, a :: as => f a :: as
  | i + 1, a :: as => a :: modifyAt f i as

/-- The loop `for key, value := range updatedFields` of `updateEmployee`; the
map is given as the list of its entries in the order the loop visits them. -/
def applyUpdates {F : Type} (updatedFields : List (String × Value F)) (foundIndex : Nat)
    (employees : List (Employee F)) : List (Employee F) :=
  updatedFields.foldl (fun es kv => modifyAt (applyField kv.1 kv.2) foundIndex es) employees

/-- The rewrite that ends `updateEmployee` and `deleteEmployee`: `os.Create`,
the header, then one record per employee. -/
def rewriteFile (sc : Strconv) (employees : List (Employee sc.Float64)) : File :=
  employees.foldl (fun file employee => csvWrite file (encodeRecord sc employee))
    (csvWrite [] header)

/-- The error of `updateEmployee` and `deleteEmployee` when no employee has the
id: `fmt.Errorf("employee with ID %d not found", employeeID)`. -/
def notFoundError (employeeID : Int) : GoError :=
  .errorf ("employee with ID " ++ Itoa employeeID ++ " not found")

/-- The function `updateEmployee`. -/
def updateEmployee (sc : Strconv) (employeeID : Int)
    (updatedFields : List (String × Value sc.Float64)) (fs : FileState) :
    Option GoError × FileState :=
  match getAllEmployees sc fs with
  | .error err => (some err, fs)
  | .ok employees =>
    match findIndex employees employeeID with
    | none => (some (notFoundError employeeID), fs)
    | some foundIndex =>
      (none, some (rewriteFile sc (applyUpdates updatedFields foundIndex employees)))

/-- The function `deleteEmployee`; `eraseIdx` is
`append(employees[:foundIndex], employees[foundIndex+1:]...)`. -/
def deleteEmployee (sc : Strconv) (employeeID : Int) (fs : FileState) :
    Option GoError × FileState :=
  match getAllEmployees sc fs with
  | .error err => (some err, fs)
  | .ok employees =>
    match findIndex employees employeeID with
    | none => (some (notFoundError employeeID), fs)
    | some foundIndex => (none, some (rewriteFile sc (employees.eraseIdx foundIndex)))

/-! ## Search -/

/-- The function `strings.Contains` on the characters of two strings. -/
def stringsContains : List Char → List Char → Bool
  | [], substr => substr.isEmpty
  | c :: cs, substr => List.isPrefixOf substr (c :: cs) || stringsContains cs substr

/-- The function `strings.ToLower`, which maps `unicode.ToLower` (the
parameter `lower`) over the characters. -/
def ToLower (lower : Char → Char) (s : String) : String := ⟨s.data.map lower⟩

/-- The function `containsSubstring`. -/
def containsSubstring (lower : Char → Char) (s substr : String) : Bool :=
  stringsContains (ToLower lower s).data (ToLower lower substr).data

/-- The method `url.Values.Get`: the first value of the key, `""` when the
query has none. -/
def queryGet (queryParams : List (String × String)) (key : String) : String :=
  match queryParams with
  | [] => ""
  | (k, v) :: rest => if k = key then v else queryGet rest key

/-- The loop of `handleSearchEmployees` that collects `matchedEmployees`. -/
def matchLoop {F : Type} (lower : Char → Char) (queryParams : List (String × String)) :
    List (Employee F) → List (Employee F)
  | [] => []
  | employee :: rest =>
    if containsSubstring lower employee.FirstName (queryGet queryParams "firstName") &&
        containsSubstring lower employee.LastName (queryGet queryParams "lastName") &&
        containsSubstring lower employee.Email (queryGet queryParams "email") &&
        containsSubstring lower employee.Role (queryGet queryParams "role") then
      employee :: matchLoop lower queryParams rest
    else matchLoop lower queryParams rest

/-- What a handler sends: `http.Error(w, err.Error(), status)`,
`http.Error(w, msg, status)` with a literal message, the slice or the employee
given to `writeJSONResponse` (status 200), or a status with no body. -/
inductive Response (F : Type) where
  | failure (status : Nat) (err : GoError)
  | failureText (status : Nat) (msg : String)
  | employees (es : List (Employee F))
  | employee (e : Employee F)
  | status (code : Nat)

/-- The function `handleSearchEmployees`. -/
def handleSearchEmployees (sc : Strconv) (lower : Char → Char)
    (queryParams : List (String × String)) (fs : FileState) : Response sc.Float64 :=
  match getAllEmployees sc fs with
  | .error err => .failure 500 err
  | .ok employees => .employees (matchLoop lower queryParams employees)

/-! ## The handlers -/

/-- The function `handleGetAllEmployees`. -/
def handleGetAllEmployees (sc : Strconv) (fs : FileState) : Response sc.Float64 :=
  match getAllEmployees sc fs with
  | .error err => .failure 500 err
  | .ok employees => .employees employees

/-- The function `handleCreateEmployee`: what it sends and the file state it
leaves. `body` is the employee that `Decode(&employee)` fills, `none` when
`Decode` returns an error. With no error nothing is written to `w`, which
`net/http` sends as status 200 with an empty body. -/
def handleCreateEmployee (sc : Strconv) (body : Option (Employee sc.Float64))
    (fs : FileState) : Response sc.Float64 × FileState :=
  match body with
  | none => (.failureText 400 "Invalid request payload", fs)
  | some employee =>
    if employee.FirstName = "" ∨ employee.LastName = "" ∨ employee.Email = "" ∨
        employee.Role = "" then
      (.failureText 400 "Missing required fields", fs)
    else
      match createEmployee sc employee fs with
      | (some err, fs') => (.failure 500 err, fs')
      | (none, fs') => (.status 200, fs')

/-- The loop of `handleViewEmployeeByID` that sets `foundEmployee`: the first
employee with the id, `none` for `nil`. -/
def findEmployee {F : Type} (employees : List (Employee F)) (employeeID : Int) :
    Option (Employee F) :=
  match employees with
  | [] => none
  | employee :: rest =>
    if employee.ID = employeeID then some employee else findEmployee rest employeeID

/-- The function `handleViewEmployeeByID`; `id` is `mux.Vars(r)["id"]`. -/
def handleViewEmployeeByID (sc : Strconv) (id : String) (fs : FileState) :
    Response sc.Float64 :=
  match Atoi id with
  | (_, some _) => .failureText 400 "Invalid employee ID"
  | (employeeID, none) =>
    match getAllEmployees sc fs with
    | .error err => .failure 500 err
    | .ok employees =>
      match findEmployee employees employeeID with
      | none => .failureText 404 "Employee not found"
      | some foundEmployee => .employee foundEmployee

/-- The function `handleUpdateEmployee`: what it sends and the file state it
leaves. `id` is `mux.Vars(r)["id"]` and `body` is the map that
`Decode(&updatedFields)` fills, `none` when `Decode` returns an error. -/
def handleUpdateEmployee (sc : Strconv) (id : String)
    (body : Option (List (String × Value sc.Float64))) (fs : FileState) :
    Response sc.Float64 × FileState :=
  match Atoi id with
  | (_, some _) => (.failureText 400 "Invalid employee ID", fs)
  | (employeeID, none) =>
    match body with
    | none => (.failureText 400 "Invalid request payload", fs)
    | some updatedFields =>
      match updateEmployee sc employeeID updatedFields fs with
      | (some err, fs') => (.failure 500 err, fs')
      | (none, fs') => (.status 200, fs')

/-- The function `handleDeleteEmployee`: what it sends and the file state it
leaves; `id` is `mux.Vars(r)["id"]`. -/
def handleDeleteEmployee (sc : Strconv) (id : String) (fs : FileState) :
    Response sc.Float64 × FileState :=
  match Atoi id with
  | (_, some _) => (.failureText 400 "Invalid employee ID", fs)
  | (employeeID, none) =>
    match deleteEmployee sc employeeID fs with
    | (some err, fs') => (.failure 500 err, fs')
    | (none, fs') => (.status 200, fs')

/-- The status of a response; `writeJSONResponse` writes no status, which
`net/http` sends as 200. -/
def statusCode {F : Type} : Response F → Nat
  | .failure status _ => status
  | .failureText status _ => status
  | .employees _ => 200
  | .employee _ => 200
  | .status code => code

/-- The JSON text that `json.NewEncoder(w).Encode(data)` writes for the data
the handlers give it: `null`, an array of employee objects or one object. -/
inductive JSONText (F : Type) where
  | null
  | array (items : List (Employee F))
  | object (e : Employee F)

/-- The encoding of a `[]Employee` by `encoding/json`: a nil slice is written
`null`, any other slice as an array; `none` when a salary is a value that
`encoding/json` refuses (`unsupported`: NaN and the infinities), for which
`Encode` returns an error and writes nothing. The slices of the handlers are
declared by `var employees []Employee` and grown by `append`, so they are nil
exactly when they have no element. -/
def encodeEmployees {F : Type} (unsupported : F → Bool) (employees : List (Employee F)) :
    Option (JSONText F) :=
  match employees with
  | [] => some .null
  | e :: rest =>
    if (e :: rest).any (fun x => unsupported x.Salary) then none else some (.array (e :: rest))

/-- The JSON text in the body of a response: what `writeJSONResponse` writes,
`none` when `Encode` fails and writes nothing (its error is dropped) and for a
response that does not come from `writeJSONResponse`. -/
def jsonBody {F : Type} (unsupported : F → Bool) : Response F → Option (JSONText F)
  | .employees es => encodeEmployees unsupported es
  | .employee e => if unsupported e.Salary then none else some (.object e)
  | _ => none

/-! ## Vocabulary of the update properties -/

/-- The seven keys of the `switch` of `updateEmployee` whose field is a string. -/
def stringFields : List String :=
  ["firstName", "lastName", "email", "password", "phoneNo", "role", "birthdate"]

/-- The field of an employee that a key of the `switch` of `updateEmployee`
stands for, as a JSON value; `none` for any other key. -/
def fieldValue {F : Type} (key : String) (e : Employee F) : Option (Value F) :=
  if key = "firstName" then some (.str e.FirstName)
  else if key = "lastName" then some (.str e.LastName)
  else if key = "email" then some (.str e.Email)
  else if key = "password" then some (.str e.Password)
  else if key = "phoneNo" then some (.str e.PhoneNo)
  else if key = "role" then some (.str e.Role)
  else if key = "salary" then some (.float64 e.Salary)
  else if key = "birthdate" then some (.str e.Birthdate)
  else none

/-- An entry that names an updatable field with a value of the expected type:
a non-empty string for a string field, a float for `salary`. -/
def validUpdate {F : Type} (key : String) (value : Value F) : Prop :=
  (key ∈ stringFields ∧ ∃ s, s ≠ "" ∧ value = .str s) ∨
  (key = "salary" ∧ ∃ x, value = .float64 x)

/-- An entry that is to be ignored: the empty string for a string field, a
value of the wrong type for its field, or a key that is none of the eight
updatable names. -/
def ignoredUpdate {F : Type} (key : String) (value : Value F) : Prop :=
  (key ∈ stringFields ∧ value = .str "") ∨
  (key ∈ stringFields ∧ ∀ s, value ≠ .str s) ∨
  (key = "salary" ∧ ∀ x, value ≠ .float64 x) ∨
  (key ∉ stringFields ∧ key ≠ "salary")

/-! ## Vocabulary of the codec and search properties -/

/-- Decoding a record and encoding the employee again; `none` when the salary
does not parse. -/
def reencode (sc : Strconv) (record : Record) : Option Record :=
  match decodeRecord sc record with
  | .error _ => none
  | .ok employee => some (encodeRecord sc employee)

/-- The text `pattern` occurs in the text `s` when case is ignored: the
lower-cased `pattern` is a contiguous part of the lower-cased `s`. -/
def occursIgnoringCase (lower : Char → Char) (pattern s : String) : Prop :=
  ∃ before after,
    (ToLower lower s).data = before ++ (ToLower lower pattern).data ++ after

/-- The query of a search with the four patterns given in the order
(firstName, lastName, email, role). -/
def searchQuery (firstName lastName email role : String) : List (String × String) :=
  [("firstName", firstName), ("lastName", lastName), ("email", email), ("role", role)]

/-- The ids of a collection are pairwise distinct. -/
def distinctIds {F : Type} (employees : List (Employee F)) : Prop :=
  (employees.map (fun e => e.ID)).Nodup

/-- The file is empty or its last line ends with a newline. -/
def closedFile (file : File) : Prop := file = [] ∨ file.getLast? = some '\n'

instance (file : File) : Decidable (closedFile file) := by unfold closedFile; infer_instance

/-- The field is read back as it is written: no CR of it stands before a LF. -/
def keptByCsv (field : String) : Prop := readBack field = field

instance (field : String) : Decidable (keptByCsv field) := by unfold keptByCsv; infer_instance

/-- An employee as the load gives it back after a write: the text fields are
read back; the id and the salary are the ones written. -/
def readBackEmployee {F : Type} (e : Employee F) : Employee F :=
  { e with
    FirstName := readBack e.FirstName
    LastName := readBack e.LastName
    Email := readBack e.Email
    Password := readBack e.Password
    PhoneNo := readBack e.PhoneNo
    Role := readBack e.Role
    Birthdate := readBack e.Birthdate }

/-- The text fields of the employee are read back as they are written. -/
def keptEmployee {F : Type} (e : Employee F) : Prop :=
  keptByCsv e.FirstName ∧ keptByCsv e.LastName ∧ keptByCsv e.Email ∧ keptByCsv e.Password ∧
  keptByCsv e.PhoneNo ∧ keptByCsv e.Role ∧ keptByCsv e.Birthdate

/-- A value of an update is read back as it is written: a text holds no CR
before a LF. -/
def keptValue {F : Type} : Value F → Prop
  | .str s => keptByCsv s
  | _ => True

/-- The text that `FormatFloat` prints is read back as it is written (it holds
digits, a sign, a point, or `NaN` and `Inf`). -/
def plainFloats (sc : Strconv) : Prop := ∀ x, readBack (sc.FormatFloat x) = sc.FormatFloat x

/-- At the start of a line the reader holds no field of a record. -/
def atRest (s : ScanState) : Prop :=
  s.err = none → s.mode = .lineStart → s.field = [] ∧ s.fields = []

/-! ## Data for the examples -/

/-- The whole numbers below `2^53` that `ParseUint` reads back from their
digits: `float64` holds each of them exactly and Go prints and parses them as
plain digit strings. -/
def WholeSalary : Type :=
  { n : Nat // ParseUint (formatUint n) = (n, none) ∧ n < 9007199254740992 }

/-- An instance of `Strconv` on which the examples are evaluated: salaries are
whole numbers, written as digit strings as Go writes them. Every other text is
a parse error here, while Go's `ParseFloat` accepts more texts. -/
def decimalStrconv : Strconv where
  Float64 := WholeSalary
  ParseFloat s :=
    match ParseUint s.data with
    | (n, none) =>
      if h : ParseUint (formatUint n) = (n, none) ∧ n < 9007199254740992 then .ok ⟨n, h⟩
      else .error ("strconv.ParseFloat: parsing \"" ++ s ++ "\": value out of range")
    | _ => .error ("strconv.ParseFloat: parsing \"" ++ s ++ "\": invalid syntax")
  FormatFloat x := ⟨formatUint x.val⟩
  parse_format := by
    intro x
    obtain ⟨n, hn⟩ := x
    simp [hn.1, hn.2]

/-- A whole salary of `decimalStrconv`. -/
def whole (n : Nat) (h : ParseUint (formatUint n) = (n, none) ∧ n < 9007199254740992) :
    decimalStrconv.Float64 := ⟨n, h⟩

/-- An employee with id 1. -/
def ann : Employee decimalStrconv.Float64 :=
  { ID := 1, FirstName := "Ann", LastName := "Lee", Email := "ann@example.com",
    Password := "pw1", PhoneNo := "555-0101", Role := "dev",
    Salary := whole 50000 (by decide), Birthdate := "1990-01-01" }

/-- An employee with id 2. -/
def bob : Employee decimalStrconv.Float64 :=
  { ID := 2, FirstName := "Bob", LastName := "Doe", Email := "bob@example.com",
    Password := "pw2", PhoneNo := "555-0102", Role := "ops",
    Salary := whole 42000 (by decide), Birthdate := "1985-05-05" }

/-- The record of `ann`. -/
def annRecord : Record :=
  ["1", "Ann", "Lee", "ann@example.com", "pw1", "555-0101", "dev", "50000", "1990-01-01"]

/-- The record of `bob`. -/
def bobRecord : Record :=
  ["2", "Bob", "Doe", "bob@example.com", "pw2", "555-0102", "ops", "42000", "1985-05-05"]

/-- The line of the header. -/
def headerLine : String := "ID,FirstName,LastName,Email,Password,PhoneNo,Role,Salary,Birthdate\n"

/-- The line of `ann`. -/
def annLine : String := "1,Ann,Lee,ann@example.com,pw1,555-0101,dev,50000,1990-01-01\n"

/-- The line of `bob`. -/
def bobLine : String := "2,Bob,Doe,bob@example.com,pw2,555-0102,ops,42000,1985-05-05\n"

/-- A file with the header and the record of `ann`. -/
def annFile : File := (headerLine ++ annLine).data

/-- A file with the header and the records of `ann` and `bob`. -/
def annBobFile : File := (headerLine ++ annLine ++ bobLine).data

/-- The record of `ann` with its id written with leading zeros. -/
def paddedRecord : Record :=
  ["007", "Ann", "Lee", "ann@example.com", "pw1", "555-0101", "dev", "50000", "1990-01-01"]

/-- A file with the header, a row of two fields and the record of `bob`. -/
def shortRowFile : File := (headerLine ++ "1,Ann\n" ++ bobLine).data

/-- The letters `A` to `Z` in lower case, every other character unchanged:
`unicode.ToLower` on ASCII. -/
def asciiLower (c : Char) : Char :=
  if 65 ≤ c.toNat ∧ c.toNat ≤ 90 then Char.ofNat (c.toNat + 32) else c

/-- The record of `ann` with twenty digits 9 as its id. -/
def bigIdRecord : Record :=
  ["99999999999999999999", "Ann", "Lee", "ann@example.com", "pw1", "555-0101", "dev", "50000",
   "1990-01-01"]

/-- The record of `ann` with the id `abc`. -/
def textIdRecord : Record :=
  ["abc", "Ann", "Lee", "ann@example.com", "pw1", "555-0101", "dev", "50000", "1990-01-01"]

/-- A file of rows of 10 fields: the header with a tenth column and the record
of `ann` with a tenth field. -/
def tenColumnFile : File :=
  ("ID,FirstName,LastName,Email,Password,PhoneNo,Role,Salary,Birthdate,Dept\n" ++
    "1,Ann,Lee,ann@example.com,pw1,555-0101,dev,50000,1990-01-01,R&D\n").data

/-- The employee `ann` without a role. -/
def annNoRole : Employee decimalStrconv.Float64 := { ann with Role := "" }

/-- An employee with id 3 whose first name is `Doe`. -/
def cid : Employee decimalStrconv.Float64 :=
  { ID := 3, FirstName := "Doe", LastName := "Ray", Email := "cid@example.com",
    Password := "pw3", PhoneNo := "555-0103", Role := "qa",
    Salary := whole 39000 (by decide), Birthdate := "1979-09-09" }

/-- A file with the header and the records of `ann`, `bob` and `cid`. -/
def annBobCidFile : File :=
  (headerLine ++ annLine ++ bobLine ++
    "3,Doe,Ray,cid@example.com,pw3,555-0103,qa,39000,1979-09-09\n").data

/-- A file with the header alone. -/
def headerFile : File := headerLine.data

/-- The file of `ann` without the newline that ends its last line. -/
def openAnnFile : File :=
  (headerLine ++ "1,Ann,Lee,ann@example.com,pw1,555-0101,dev,50000,1990-01-01").data

/-- A file with the header, the record of `ann` with the id 0 and, after its
last newline, a CR alone. -/
def loneCrFile : File :=
  (headerLine ++ "0,Ann,Lee,ann@example.com,pw1,555-0101,dev,50000,1990-01-01\n\r").data

/-- A file with the header and the record of `ann` with twenty digits 9 as its
id. -/
def bigIdFile : File :=
  (headerLine ++
    "99999999999999999999,Ann,Lee,ann@example.com,pw1,555-0101,dev,50000,1990-01-01\n").data

/-- A file where two records have id 1: the records of `ann`, `bob` and `ann`. -/
def annBobAnnFile : File := (headerLine ++ annLine ++ bobLine ++ annLine).data

/-- The employee `ann` with CR LF inside her first name. -/
def annCrLf : Employee decimalStrconv.Float64 := { ann with FirstName := "An\r\nn" }

/-- The employee `ann` with LF inside her first name. -/
def annLf : Employee decimalStrconv.Float64 := { ann with FirstName := "An\nn" }

/-- A file with the header, the record of `ann` with the quoted first name
`An` CR CR LF `n`, which is read as `An` CR LF `n`, and the record of `bob`. -/
def crLfFile : File :=
  (headerLine ++ "1,\"An\r\r\nn\",Lee,ann@example.com,pw1,555-0101,dev,50000,1990-01-01\n"
    ++ bobLine).data

set_option maxRecDepth 100000

/-! ## Lemmas on `Atoi` and `Itoa` -/

theorem digitChar_toNat (d : Nat) (h : d < 10) : (digitChar d).toNat = 48 + d := by
  interval_cases d <;> rfl

theorem digitChar_ne_sign (d : Nat) (h : d < 10) : digitChar d ≠ '+' ∧ digitChar d ≠ '-' := by
  interval_cases d <;> decide

theorem parseUintLoop_digit (d : Nat) (h : d < 10) (cs : List Char) (n : Nat)
    (hn : n * 10 + d ≤ maxUint64) :
    parseUintLoop (digitChar d :: cs) n = parseUintLoop cs (n * 10 + d) := by
  have hc := digitChar_toNat d h
  have h1 : ¬ cutoff10 ≤ n := by unfold cutoff10; unfold maxUint64 at hn; omega
  have h2 : ¬ maxUint64 < n * 10 + d := by omega
  simp [parseUintLoop, hc, h1, h2]
  omega

theorem parseUintLoop_formatUintAux (fuel : Nat) :
    ∀ (n : Nat) (acc : List Char), n < fuel → n ≤ maxUint64 →
      parseUintLoop (formatUintAux fuel n acc) 0 = parseUintLoop acc n := by
  induction fuel with
  | zero => intro n acc h; omega
  | succ fuel ih =>
    intro n acc hf hn
    have hmod : n % 10 < 10 := Nat.mod_lt _ (by decide)
    by_cases h0 : n / 10 = 0
    · have hlt : n < 10 := by omega
      have hm : n % 10 = n := Nat.mod_eq_of_lt hlt
      simp only [formatUintAux, h0, if_true]
      rw [parseUintLoop_digit _ hmod _ _ (by unfold maxUint64; omega)]
      simp [hm]
    · simp only [formatUintAux, h0, if_false]
      rw [ih (n / 10) _ (by omega) (by omega)]
      rw [parseUintLoop_digit _ hmod _ _ (by omega)]
      congr 1
      omega

theorem formatUintAux_head_acc (fuel : Nat) :
    ∀ (n d0 : Nat) (acc : List Char), d0 < 10 →
      ∃ d cs, d < 10 ∧ formatUintAux fuel n (digitChar d0 :: acc) = digitChar d :: cs := by
  induction fuel with
  | zero => intro n d0 acc h; exact ⟨d0, acc, h, rfl⟩
  | succ fuel ih =>
    intro n d0 acc _
    have hmod : n % 10 < 10 := Nat.mod_lt _ (by decide)
    by_cases h0 : n / 10 = 0
    · exact ⟨n % 10, digitChar d0 :: acc, hmod, by simp [formatUintAux, h0]⟩
    · obtain ⟨d, cs, hd, he⟩ := ih (n / 10) (n % 10) (digitChar d0 :: acc) hmod
      exact ⟨d, cs, hd, by simp [formatUintAux, h0, he]⟩

theorem formatUint_head (n : Nat) :
    ∃ d cs, d < 10 ∧ formatUint n = digitChar d :: cs := by
  have hmod : n % 10 < 10 := Nat.mod_lt _ (by decide)
  unfold formatUint
  by_cases h0 : n / 10 = 0
  · exact ⟨n % 10, [], hmod, by simp [formatUintAux, h0]⟩
  · obtain ⟨d, cs, hd, he⟩ := formatUintAux_head_acc n (n / 10) (n % 10) [] hmod
    exact ⟨d, cs, hd, by simp [formatUintAux, h0, he]⟩

theorem ParseUint_formatUint (n : Nat) (hn : n ≤ maxUint64) :
    ParseUint (formatUint n) = (n, none) := by
  obtain ⟨d, cs, _, he⟩ := formatUint_head n
  have h := parseUintLoop_formatUintAux (n + 1) n [] (by omega) hn
  have h2 : ParseUint (formatUint n) = parseUintLoop (formatUint n) 0 := by
    rw [he]; rfl
  rw [h2]
  unfold formatUint
  rw [h]
  rfl

/-- The function `Atoi` reads back what `Itoa` prints for a Go `int`. -/
theorem Atoi_Itoa (i : Int) (h : isGoInt i) : Atoi (Itoa i) = (i, none) := by
  unfold isGoInt intCutoff at h
  cases i with
  | ofNat n =>
    have hn : (n : Int) < 9223372036854775808 := h.2
    obtain ⟨d, cs, hd, he⟩ := formatUint_head n
    have hs := digitChar_ne_sign d hd
    have hp := ParseUint_formatUint n (by unfold maxUint64; omega)
    have hlt : ¬ intCutoff ≤ n := by unfold intCutoff; omega
    simp only [Atoi, Itoa]
    rw [he] at hp ⊢
    simp [ParseInt, hs.1, hs.2, hp, clampInt, hlt]
  | negSucc n =>
    have hn : -(9223372036854775808 : Int) ≤ -((n : Int) + 1) := by
      have := h.1
      rw [Int.negSucc_eq] at this
      simpa using this
    have hp := ParseUint_formatUint (n + 1) (by unfold maxUint64; omega)
    have hlt : ¬ intCutoff < n + 1 := by unfold intCutoff; omega
    simp only [Atoi, Itoa]
    simp [ParseInt, hp, clampInt, hlt]
    rw [Int.negSucc_eq]
    omega

theorem clampInt_isGoInt (neg : Bool) (un : Nat) : isGoInt (clampInt neg un).1 := by
  unfold clampInt isGoInt intCutoff
  cases neg <;> simp <;> split <;> simp <;> omega

/-- Whatever the text, `Atoi` returns a Go `int`. -/
theorem Atoi_isGoInt (s : String) : isGoInt (Atoi s).1 := by
  unfold Atoi ParseInt
  split
  · unfold isGoInt intCutoff; simp
  · simp only
    split
    · unfold isGoInt intCutoff; simp
    · exact clampInt_isGoInt _ _

theorem formatUintAux_chars (fuel : Nat) :
    ∀ (n : Nat) (acc : List Char) (c : Char), c ∈ formatUintAux fuel n acc →
      c ∈ acc ∨ ∃ d, d < 10 ∧ c = digitChar d := by
  induction fuel with
  | zero => intro n acc c h; exact Or.inl h
  | succ fuel ih =>
    intro n acc c h
    have hmod : n % 10 < 10 := Nat.mod_lt _ (by decide)
    by_cases h0 : n / 10 = 0
    · simp only [formatUintAux, h0, if_true, List.mem_cons] at h
      rcases h with h | h
      · exact Or.inr ⟨n % 10, hmod, h⟩
      · exact Or.inl h
    · simp only [formatUintAux, h0, if_false] at h
      rcases ih _ _ c h with h | h
      · rcases List.mem_cons.mp h with h | h
        · exact Or.inr ⟨n % 10, hmod, h⟩
        · exact Or.inl h
      · exact Or.inr h

theorem digitChar_ne_cr (d : Nat) (h : d < 10) : digitChar d ≠ '\r' := by
  interval_cases d <;> decide

/-- The text that `Itoa` prints holds no carriage return. -/
theorem Itoa_no_cr (i : Int) : ∀ c ∈ (Itoa i).data, c ≠ '\r' := by
  have hu : ∀ n, ∀ c ∈ formatUint n, c ≠ '\r' := by
    intro n c hc
    rcases formatUintAux_chars _ _ _ c hc with h | ⟨d, hd, rfl⟩
    · cases h
    · exact digitChar_ne_cr d hd
  cases i with
  | ofNat n => exact hu n
  | negSucc n =>
    intro c hc
    rcases List.mem_cons.mp hc with h | h
    · rw [h]; decide
    · exact hu _ c h

/-! ## Lemmas on the field-count rule -/

theorem readAllLoop_ok (fpr k : Nat) (rows rs : List Record)
    (h : readAllLoop fpr k rows = .ok rs) : rs = rows := by
  induction rows generalizing fpr k rs with
  | nil => simp [readAllLoop] at h; exact h
  | cons r rest ih =>
    unfold readAllLoop at h
    split at h
    · cases h
    · split at h
      · cases h
      · rename_i rs2 h2
        cases h
        rw [ih _ _ _ h2]

theorem readAllLoop_uniform (fpr k : Nat) (rows : List Record) (hpos : 0 < fpr)
    (h : ∀ r ∈ rows, r.length = fpr) : readAllLoop fpr k rows = .ok rows := by
  induction rows generalizing k with
  | nil => rfl
  | cons r rest ih =>
    have hr : r.length = fpr := h r (List.mem_cons_self _ _)
    have hne : fpr ≠ 0 := by omega
    unfold readAllLoop
    simp only [hr, ne_eq, not_true_eq_false, and_false, if_false, hne]
    rw [ih (k + 1) (fun x hx => h x (List.mem_cons_of_mem _ hx))]

theorem readAllLoop_lengths (fpr k : Nat) (rows rs : List Record) (hpos : 0 < fpr)
    (h : readAllLoop fpr k rows = .ok rs) : ∀ r ∈ rows, r.length = fpr := by
  induction rows generalizing k rs with
  | nil => intro r hr; cases hr
  | cons r rest ih =>
    unfold readAllLoop at h
    split at h
    · cases h
    · rename_i hc
      have hne : fpr ≠ 0 := by omega
      simp only [hne, if_false] at h
      split at h
      · cases h
      · rename_i rs2 h2
        intro x hx
        rcases List.mem_cons.mp hx with hx | hx
        · subst hx
          by_contra hcon
          exact hc ⟨hpos, hcon⟩
        · exact ih _ _ h2 x hx

/-- The field-count rule on records whose first has `n > 0` fields accepts them
exactly when every record has `n` fields, and then returns them. -/
theorem readAll_cons (first : Record) (rest : List Record) (hpos : 0 < first.length) :
    (readAllLoop 0 0 (first :: rest) = .ok (first :: rest) ∧
      ∀ r ∈ rest, r.length = first.length) ∨
    (∃ err, readAllLoop 0 0 (first :: rest) = .error err ∧
      ¬ ∀ r ∈ rest, r.length = first.length) := by
  have h0 : ¬ (0 < 0 ∧ first.length ≠ 0) := by omega
  unfold readAllLoop
  simp only [h0, if_false, if_true]
  cases hrest : readAllLoop first.length (0 + 1) rest with
  | error err =>
    right
    refine ⟨err, rfl, ?_⟩
    intro hall
    rw [readAllLoop_uniform _ _ _ hpos hall] at hrest
    cases hrest
  | ok rs =>
    left
    have := readAllLoop_ok _ _ _ _ hrest
    subst this
    exact ⟨rfl, readAllLoop_lengths _ _ _ _ hpos hrest⟩

theorem readAll_uniform (first : Record) (rest : List Record) (hpos : 0 < first.length)
    (h : ∀ r ∈ rest, r.length = first.length) :
    readAllLoop 0 0 (first :: rest) = .ok (first :: rest) := by
  rcases readAll_cons first rest hpos with ⟨hok, _⟩ | ⟨_, _, hne⟩
  · exact hok
  · exact absurd h hne

theorem readAll_lengths (first : Record) (rest : List Record) (rs : List Record)
    (hpos : 0 < first.length) (h : readAllLoop 0 0 (first :: rest) = .ok rs) :
    ∀ r ∈ rest, r.length = first.length := by
  rcases readAll_cons first rest hpos with ⟨_, hall⟩ | ⟨err, herr, _⟩
  · exact hall
  · rw [herr] at h
    cases h

/-! ## Lemmas on the csv reader and writer -/

theorem foldl_step_err (cs : List Char) (s : ScanState) (e : GoError) (h : s.err = some e) :
    cs.foldl step s = s := by
  induction cs with
  | nil => rfl
  | cons c rest ih =>
    have hs : step s c = s := by
      unfold step
      rw [h]
    rw [List.foldl_cons, hs, ih]

theorem readBackChars_cons_ne (c : Char) (rest : List Char) (h : c ≠ '\r') :
    readBackChars (c :: rest) = c :: readBackChars rest := by
  simp [readBackChars, h]

theorem readBackChars_cr_lf (rest : List Char) :
    readBackChars ('\r' :: '\n' :: rest) = '\n' :: readBackChars rest := by
  simp [readBackChars]

theorem readBackChars_cr_ne (c : Char) (rest : List Char) (h : c ≠ '\n') :
    readBackChars ('\r' :: c :: rest) = '\r' :: readBackChars (c :: rest) := by
  have : ¬ (some c = some '\n') := by simpa using h
  simp [readBackChars, h]

theorem readBackChars_cr_nil : readBackChars ['\r'] = ['\r'] := by
  simp [readBackChars]

/-- The reader inside a quoted field: it reads what the writer wrote up to the
closing quote, with CR LF read as LF. -/
theorem scan_quoted (cs : List Char) :
    ∀ (cr : Bool) (fld : List Char) (fields : List String) (records : List Record),
      (escapeQuotes cs ++ ['"']).foldl step ⟨.quoted, cr, fld, fields, records, none⟩
        = ⟨.quoteEnd, false,
            fld ++ readBackChars ((if cr then ['\r'] else []) ++ cs), fields, records, none⟩ := by
  induction cs with
  | nil =>
    intro cr fld fields records
    cases cr
    · simp [escapeQuotes, step, stepQuoted, readBackChars]
    · simp [escapeQuotes, step, stepQuoted, readBackChars]
  | cons c rest ih =>
    intro cr fld fields records
    by_cases hq : c = '"'
    · subst hq
      cases cr
      · simp only [escapeQuotes, if_true, List.cons_append, List.foldl_cons]
        have h1 : step ⟨.quoted, false, fld, fields, records, none⟩ '"'
            = ⟨.quoteEnd, false, fld, fields, records, none⟩ := by
          simp [step, stepQuoted]
        have h2 : step ⟨.quoteEnd, false, fld, fields, records, none⟩ '"'
            = ⟨.quoted, false, fld ++ ['"'], fields, records, none⟩ := by
          simp [step]
        rw [h1, h2, ih]
        simp [readBackChars_cons_ne]
      · simp only [escapeQuotes, if_true, List.cons_append, List.foldl_cons]
        have h1 : step ⟨.quoted, true, fld, fields, records, none⟩ '"'
            = ⟨.quoteEnd, false, fld ++ ['\r'], fields, records, none⟩ := by
          simp [step, stepQuoted]
        have h2 : step ⟨.quoteEnd, false, fld ++ ['\r'], fields, records, none⟩ '"'
            = ⟨.quoted, false, fld ++ ['\r'] ++ ['"'], fields, records, none⟩ := by
          simp [step]
        rw [h1, h2, ih]
        simp [readBackChars_cr_ne, readBackChars_cons_ne]
    · by_cases hr : c = '\r'
      · subst hr
        cases cr
        · simp only [escapeQuotes, List.cons_append, List.foldl_cons]
          have h1 : step ⟨.quoted, false, fld, fields, records, none⟩ '\r'
              = ⟨.quoted, true, fld, fields, records, none⟩ := by
            simp [step, stepQuoted]
          simp only [show ¬ ('\r' = '"') by decide, if_false, List.cons_append, List.foldl_cons]
          rw [h1, ih]
          simp
        · have h1 : step ⟨.quoted, true, fld, fields, records, none⟩ '\r'
              = ⟨.quoted, true, fld ++ ['\r'], fields, records, none⟩ := by
            simp [step, stepQuoted]
          simp only [escapeQuotes, show ¬ ('\r' = '"') by decide, if_false, List.cons_append,
            List.foldl_cons]
          rw [h1, ih]
          simp [readBackChars_cr_ne]
      · by_cases hn : c = '\n'
        · subst hn
          cases cr
          · have h1 : step ⟨.quoted, false, fld, fields, records, none⟩ '\n'
                = ⟨.quoted, false, fld ++ ['\n'], fields, records, none⟩ := by
              simp [step, stepQuoted]
            simp only [escapeQuotes, show ¬ ('\n' = '"') by decide, if_false, List.cons_append,
              List.foldl_cons]
            rw [h1, ih]
            simp [readBackChars_cons_ne]
          · have h1 : step ⟨.quoted, true, fld, fields, records, none⟩ '\n'
                = ⟨.quoted, false, fld ++ ['\n'], fields, records, none⟩ := by
              simp [step]
            simp only [escapeQuotes, show ¬ ('\n' = '"') by decide, if_false, List.cons_append,
              List.foldl_cons]
            rw [h1, ih]
            simp [readBackChars_cr_lf]
        · cases cr
          · have h1 : step ⟨.quoted, false, fld, fields, records, none⟩ c
                = ⟨.quoted, false, fld ++ [c], fields, records, none⟩ := by
              simp [step, stepQuoted, hq, hr]
            simp only [escapeQuotes, hq, if_false, List.cons_append, List.foldl_cons]
            rw [h1, ih]
            simp [readBackChars_cons_ne _ _ hr]
          · have h1 : step ⟨.quoted, true, fld, fields, records, none⟩ c
                = ⟨.quoted, false, fld ++ ['\r'] ++ [c], fields, records, none⟩ := by
              simp [step, stepQuoted, hq, hr, hn]
            simp only [escapeQuotes, hq, if_false, List.cons_append, List.foldl_cons]
            rw [h1, ih]
            simp [readBackChars_cr_ne _ _ hn, readBackChars_cons_ne _ _ hr]

theorem readBackChars_of_no_cr (cs : List Char) (h : ∀ c ∈ cs, c ≠ '\r') :
    readBackChars cs = cs := by
  induction cs with
  | nil => rfl
  | cons c rest ih =>
    rw [readBackChars_cons_ne c rest (h c (List.mem_cons_self _ _)),
      ih (fun x hx => h x (List.mem_cons_of_mem _ hx))]

theorem not_special_of_not_needsQuotes (f : List Char) (h : fieldNeedsQuotes f = false) :
    ∀ c ∈ f, isSpecial c = false := by
  cases f with
  | nil => intro c hc; cases hc
  | cons a rest =>
    simp only [fieldNeedsQuotes, Bool.or_eq_false_iff] at h
    intro c hc
    have hany := h.1.2
    rw [List.any_eq_false] at hany
    simpa using hany c hc

theorem isSpecial_false (c : Char) (h : isSpecial c = false) :
    c ≠ '\n' ∧ c ≠ '\r' ∧ c ≠ '"' ∧ c ≠ ',' := by
  simp only [isSpecial, Bool.or_eq_false_iff, decide_eq_false_iff_not] at h
  exact ⟨h.1.1.1, h.1.1.2, h.1.2, h.2⟩

/-- The reader inside an unquoted field keeps the characters that need no quotes. -/
theorem scan_plain (cs : List Char) (h : ∀ c ∈ cs, isSpecial c = false) :
    ∀ (fld : List Char) (fields : List String) (records : List Record),
      cs.foldl step ⟨.unquoted, false, fld, fields, records, none⟩
        = ⟨.unquoted, false, fld ++ cs, fields, records, none⟩ := by
  induction cs with
  | nil => intro fld fields records; simp
  | cons c rest ih =>
    intro fld fields records
    obtain ⟨h1, h2, h3, h4⟩ := isSpecial_false c (h c (List.mem_cons_self _ _))
    have hs : step ⟨.unquoted, false, fld, fields, records, none⟩ c
        = ⟨.unquoted, false, fld ++ [c], fields, records, none⟩ := by
      simp [step, stepUnquoted, h1, h2, h3, h4]
    rw [List.foldl_cons, hs, ih (fun x hx => h x (List.mem_cons_of_mem _ hx))]
    simp

/-- The state of the reader after a field that the writer wrote, when the field
starts a line or follows a comma and has not met its end yet: inside an
unquoted field, after the closing quote, or still at the start for the empty
field. -/
theorem scan_field_comma (f : List Char) (m : ScanMode)
    (hm : m = .lineStart ∨ m = .fieldStart) (fields : List String) (records : List Record) :
    (writeField f ++ [',']).foldl step ⟨m, false, [], fields, records, none⟩
      = ⟨.fieldStart, false, [], fields ++ [⟨readBackChars f⟩], records, none⟩ := by
  unfold writeField
  cases hq : fieldNeedsQuotes f with
  | true =>
    have h1 : step ⟨m, false, [], fields, records, none⟩ '"'
        = ⟨.quoted, false, [], fields, records, none⟩ := by
      rcases hm with rfl | rfl <;> simp [step]
    have hw : ('"' :: (escapeQuotes f ++ ['"'])) ++ [',']
        = '"' :: ((escapeQuotes f ++ ['"']) ++ [',']) := rfl
    simp only [if_true]
    rw [hw, List.foldl_cons, h1, List.foldl_append, scan_quoted]
    simp [step, endField]
  | false =>
    have hplain := not_special_of_not_needsQuotes f hq
    have hrb : readBackChars f = f :=
      readBackChars_of_no_cr f (fun c hc => (isSpecial_false c (hplain c hc)).2.1)
    simp only [Bool.false_eq_true, if_false]
    rw [hrb]
    cases f with
    | nil =>
      rcases hm with rfl | rfl <;> simp [step, stepUnquoted, endField]
    | cons c rest =>
      obtain ⟨h1, h2, h3, h4⟩ := isSpecial_false c (hplain c (List.mem_cons_self _ _))
      have hs : step ⟨m, false, [], fields, records, none⟩ c
          = ⟨.unquoted, false, [c], fields, records, none⟩ := by
        rcases hm with rfl | rfl <;> simp [step, stepUnquoted, h1, h2, h3, h4]
      rw [List.cons_append, List.foldl_cons, hs, List.foldl_append,
        scan_plain rest (fun x hx => hplain x (List.mem_cons_of_mem _ hx))]
      simp [step, stepUnquoted, endField]

theorem scan_field_newline (f : List Char) (fields : List String) (records : List Record) :
    (writeField f ++ ['\n']).foldl step ⟨.fieldStart, false, [], fields, records, none⟩
      = ⟨.lineStart, false, [], [], records ++ [fields ++ [⟨readBackChars f⟩]], none⟩ := by
  unfold writeField
  cases hq : fieldNeedsQuotes f with
  | true =>
    have h1 : step ⟨.fieldStart, false, [], fields, records, none⟩ '"'
        = ⟨.quoted, false, [], fields, records, none⟩ := by
      simp [step]
    have hw : ('"' :: (escapeQuotes f ++ ['"'])) ++ ['\n']
        = '"' :: ((escapeQuotes f ++ ['"']) ++ ['\n']) := rfl
    simp only [if_true]
    rw [hw, List.foldl_cons, h1, List.foldl_append, scan_quoted]
    simp [step, endRecord]
  | false =>
    have hplain := not_special_of_not_needsQuotes f hq
    have hrb : readBackChars f = f :=
      readBackChars_of_no_cr f (fun c hc => (isSpecial_false c (hplain c hc)).2.1)
    simp only [Bool.false_eq_true, if_false]
    rw [hrb]
    cases f with
    | nil => simp [step, stepUnquoted, endRecord]
    | cons c rest =>
      obtain ⟨h1, h2, h3, h4⟩ := isSpecial_false c (hplain c (List.mem_cons_self _ _))
      have hs : step ⟨.fieldStart, false, [], fields, records, none⟩ c
          = ⟨.unquoted, false, [c], fields, records, none⟩ := by
        simp [step, stepUnquoted, h1, h2, h3, h4]
      rw [List.cons_append, List.foldl_cons, hs, List.foldl_append,
        scan_plain rest (fun x hx => hplain x (List.mem_cons_of_mem _ hx))]
      simp [step, stepUnquoted, endRecord]

/-- The reader on the fields that follow a comma, up to the end of the line. -/
theorem scan_fields (rest : List String) :
    ∀ (f : String) (fields : List String) (records : List Record),
      (writeFields (f :: rest) ++ ['\n']).foldl step
          ⟨.fieldStart, false, [], fields, records, none⟩
        = ⟨.lineStart, false, [], [],
            records ++ [fields ++ (f :: rest).map readBack], none⟩ := by
  induction rest with
  | nil =>
    intro f fields records
    simp only [writeFields, List.map_cons, List.map_nil]
    exact scan_field_newline f.data fields records
  | cons g rest ih =>
    intro f fields records
    have hw : writeFields (f :: g :: rest) ++ ['\n']
        = (writeField f.data ++ [',']) ++ (writeFields (g :: rest) ++ ['\n']) := by
      simp [writeFields]
    rw [hw, List.foldl_append, scan_field_comma f.data .fieldStart (Or.inr rfl), ih]
    simp [readBack]

/-- The reader at the start of a line reads a record of two fields or more
that the writer wrote as that record, each field with CR LF read as LF. -/
theorem scan_formatRecord (f g : String) (rest : List String) (records : List Record) :
    (formatRecord (f :: g :: rest)).foldl step ⟨.lineStart, false, [], [], records, none⟩
      = ⟨.lineStart, false, [], [], records ++ [(f :: g :: rest).map readBack], none⟩ := by
  have hw : formatRecord (f :: g :: rest)
      = (writeField f.data ++ [',']) ++ (writeFields (g :: rest) ++ ['\n']) := by
    simp [formatRecord, writeFields]
  rw [hw, List.foldl_append, scan_field_comma f.data .lineStart (Or.inl rfl), scan_fields]
  simp [readBack]

theorem atRest_step (s : ScanState) (c : Char) (h : atRest s) : atRest (step s c) := by
  obtain ⟨mode, cr, field, fields, records, err⟩ := s
  cases err with
  | some e => simpa [step] using h
  | none =>
    have h0 : mode = .lineStart → field = [] ∧ fields = [] := fun hm => h rfl hm
    cases mode <;> cases cr <;>
      simp only [step, stepUnquoted, stepQuoted, endRecord, endField, atRest] <;>
      split_ifs <;> simp_all

theorem atRest_foldl (cs : List Char) (s : ScanState) (h : atRest s) :
    atRest (cs.foldl step s) := by
  induction cs generalizing s with
  | nil => exact h
  | cons c rest ih => exact ih _ (atRest_step s c h)

theorem atRest_scanStart : atRest scanStart := fun _ _ => ⟨rfl, rfl⟩

theorem step_newline_closed (s : ScanState) (hs : atRest s) (R : List Record)
    (h : finish (step s '\n') = (R, none)) :
    step s '\n' = ⟨.lineStart, false, [], [], R, none⟩ := by
  obtain ⟨mode, cr, field, fields, records, err⟩ := s
  cases err with
  | some e => simp [step, finish] at h
  | none =>
    have h0 : mode = .lineStart → field = [] ∧ fields = [] := fun hm => hs rfl hm
    cases mode <;> cases cr <;>
      simp_all [step, stepUnquoted, stepQuoted, endRecord, endField, finish]

/-- The state of the reader at the end of a file that it reads without error
and that is empty or ends with a newline: at the start of a line, all the
records of the file read. -/
theorem scan_closed (file : File) (R : List Record)
    (hclosed : file = [] ∨ ∃ front, file = front ++ ['\n'])
    (h : csvScan file = (R, none)) :
    file.foldl step scanStart = ⟨.lineStart, false, [], [], R, none⟩ := by
  rcases hclosed with rfl | ⟨front, rfl⟩
  · simp only [csvScan, List.foldl_nil, finish, scanStart] at h
    simp only [List.foldl_nil, scanStart]
    cases h
    rfl
  · unfold csvScan at h
    rw [List.foldl_append] at h ⊢
    simp only [List.foldl_cons, List.foldl_nil] at h ⊢
    exact step_newline_closed _ (atRest_foldl front scanStart atRest_scanStart) R h

/-- Appending the line of a record of two fields or more to a file that is
read without error and is empty or ends with a newline adds the record, read
back, to the records of the file. -/
theorem csvScan_append (file : File) (R : List Record) (f g : String) (rest : List String)
    (hclosed : file = [] ∨ ∃ front, file = front ++ ['\n'])
    (h : csvScan file = (R, none)) :
    csvScan (file ++ formatRecord (f :: g :: rest))
      = (R ++ [(f :: g :: rest).map readBack], none) := by
  unfold csvScan
  rw [List.foldl_append, scan_closed file R hclosed h, scan_formatRecord]
  rfl

theorem formatRecord_closed (file : File) (record : Record) :
    ∃ front, file ++ formatRecord record = front ++ ['\n'] :=
  ⟨file ++ writeFields record, by simp [formatRecord]⟩

theorem closedFile_cases (file : File) (h : closedFile file) :
    file = [] ∨ ∃ front, file = front ++ ['\n'] := by
  rcases h with h | h
  · exact Or.inl h
  · right
    rcases List.eq_nil_or_concat file with h0 | ⟨front, c, hc⟩
    · rw [h0] at h
      simp at h
    · rw [hc] at h
      simp only [List.concat_eq_append, List.getLast?_append, List.getLast?_singleton] at h
      have hcn : c = '\n' := by
        simpa [Option.or] using h
      exact ⟨front, by rw [hc, hcn]; simp⟩

theorem closedFile_csvWrite (file : File) (record : Record) :
    closedFile (csvWrite file record) := by
  right
  unfold csvWrite formatRecord
  rw [← List.append_assoc, List.getLast?_append]
  simp

theorem csvReadAll_of_scan (file : File) (R : List Record) (h : csvScan file = (R, none)) :
    csvReadAll file = readAllLoop 0 0 R := by
  unfold csvReadAll
  rw [h]
  simp only
  generalize readAllLoop 0 0 R = res
  cases res <;> rfl

theorem csvReadAll_ok (file : File) (rs : List Record) (h : csvReadAll file = .ok rs) :
    csvScan file = (rs, none) ∧ readAllLoop 0 0 rs = .ok rs := by
  unfold csvReadAll at h
  rcases hs : csvScan file with ⟨R, perr⟩
  rw [hs] at h
  simp only at h
  cases hr : readAllLoop 0 0 R with
  | error e =>
    rw [hr] at h
    cases h
  | ok rows =>
    rw [hr] at h
    have hrows := readAllLoop_ok _ _ _ _ hr
    subst hrows
    cases perr with
    | some e => cases h
    | none =>
      cases h
      exact ⟨rfl, hr⟩

/-! ## Lemmas on the codec and on the load -/

theorem encodeRecord_length (sc : Strconv) (e : Employee sc.Float64) :
    (encodeRecord sc e).length = 9 := rfl

/-- Decoding the record written for an employee gives the employee back. -/
theorem decodeRecord_encodeRecord (sc : Strconv) (e : Employee sc.Float64)
    (h : isGoInt e.ID) : decodeRecord sc (encodeRecord sc e) = .ok e := by
  simp [decodeRecord, encodeRecord, Atoi_Itoa e.ID h, sc.parse_format]

theorem decodeRecord_isGoInt (sc : Strconv) (record : Record) (e : Employee sc.Float64)
    (h : decodeRecord sc record = .ok e) : isGoInt e.ID := by
  unfold decodeRecord at h
  simp only at h
  split at h
  · cases h
  · cases h
    exact Atoi_isGoInt _

theorem decodeLoop_isGoInt (sc : Strconv) (rows : List Record)
    (C : List (Employee sc.Float64)) (h : decodeLoop sc rows = .ok C) :
    ∀ e ∈ C, isGoInt e.ID := by
  induction rows generalizing C with
  | nil =>
    simp [decodeLoop] at h
    subst h
    intro e he
    cases he
  | cons r rest ih =>
    unfold decodeLoop at h
    split at h
    · exact ih C h
    · split at h
      · cases h
      · rename_i emp hemp
        split at h
        · cases h
        · rename_i es hes
          cases h
          intro e he
          rcases List.mem_cons.mp he with he | he
          · subst he
            exact decodeRecord_isGoInt sc r _ hemp
          · exact ih es hes e he

theorem decodeLoop_append (sc : Strconv) (rows : List Record) (record : Record)
    (C : List (Employee sc.Float64)) (e : Employee sc.Float64)
    (hC : decodeLoop sc rows = .ok C) (h9 : ¬ record.length < 9)
    (he : decodeRecord sc record = .ok e) :
    decodeLoop sc (rows ++ [record]) = .ok (C ++ [e]) := by
  induction rows generalizing C with
  | nil =>
    simp [decodeLoop] at hC
    subst hC
    simp [decodeLoop, h9, he]
  | cons r rest ih =>
    unfold decodeLoop at hC
    simp only [List.cons_append]
    unfold decodeLoop
    split at hC
    · rename_i hlt
      simp only [hlt, if_true]
      exact ih C hC
    · rename_i hlt
      simp only [hlt, if_false]
      split at hC
      · cases hC
      · rename_i emp hemp
        split at hC
        · cases hC
        · rename_i es hes
          cases hC
          simp [ih es hes]

theorem decodeLoop_encode (sc : Strconv) (es : List (Employee sc.Float64))
    (h : ∀ e ∈ es, isGoInt e.ID) :
    decodeLoop sc (es.map (encodeRecord sc)) = .ok es := by
  induction es with
  | nil => rfl
  | cons e rest ih =>
    have h9 : ¬ (encodeRecord sc e).length < 9 := by rw [encodeRecord_length]; omega
    simp only [List.map_cons]
    unfold decodeLoop
    simp only [h9, if_false]
    rw [decodeRecord_encodeRecord sc e (h e (List.mem_cons_self _ _))]
    simp only
    rw [ih (fun x hx => h x (List.mem_cons_of_mem _ hx))]

theorem readBack_of_no_cr (field : String) (h : ∀ c ∈ field.data, c ≠ '\r') :
    readBack field = field := by
  unfold readBack
  rw [readBackChars_of_no_cr field.data h]

theorem readBack_Itoa (i : Int) : readBack (Itoa i) = Itoa i :=
  readBack_of_no_cr _ (Itoa_no_cr i)

/-- The record of an employee, read back, is the record of the employee read
back. -/
theorem encodeRecord_readBack (sc : Strconv) (hfmt : plainFloats sc)
    (e : Employee sc.Float64) :
    (encodeRecord sc e).map readBack = encodeRecord sc (readBackEmployee e) := by
  simp [encodeRecord, readBackEmployee, readBack_Itoa, hfmt e.Salary]

theorem readBackEmployee_ID {F : Type} (e : Employee F) : (readBackEmployee e).ID = e.ID := rfl

theorem readBackEmployee_of_kept {F : Type} (e : Employee F) (h : keptEmployee e) :
    readBackEmployee e = e := by
  obtain ⟨h1, h2, h3, h4, h5, h6, h7⟩ := h
  unfold keptByCsv at h1 h2 h3 h4 h5 h6 h7
  cases e
  simp_all [readBackEmployee]

theorem map_readBackEmployee_of_kept {F : Type} (es : List (Employee F))
    (h : ∀ e ∈ es, keptEmployee e) : es.map readBackEmployee = es := by
  induction es with
  | nil => rfl
  | cons e rest ih =>
    rw [List.map_cons, readBackEmployee_of_kept e (h e (List.mem_cons_self _ _)),
      ih (fun x hx => h x (List.mem_cons_of_mem _ hx))]

theorem header_readBack : header.map readBack = header := by decide

/-- The reader on the file that a rewrite leaves: at the start of a line, the
header and the record of each employee read. -/
theorem scan_foldl_csvWrite (sc : Strconv) (es : List (Employee sc.Float64)) :
    ∀ (file : File) (R : List Record),
      file.foldl step scanStart = ⟨.lineStart, false, [], [], R, none⟩ →
      (es.foldl (fun file employee => csvWrite file (encodeRecord sc employee)) file).foldl
          step scanStart
        = ⟨.lineStart, false, [], [],
            R ++ es.map (fun e => (encodeRecord sc e).map readBack), none⟩ := by
  induction es with
  | nil => intro file R h; simpa using h
  | cons e rest ih =>
    intro file R h
    simp only [List.foldl_cons, List.map_cons]
    have h1 : (csvWrite file (encodeRecord sc e)).foldl step scanStart
        = ⟨.lineStart, false, [], [], R ++ [(encodeRecord sc e).map readBack], none⟩ := by
      unfold csvWrite
      rw [List.foldl_append, h]
      exact scan_formatRecord _ _ _ R
    rw [ih _ _ h1]
    simp

theorem csvScan_rewriteFile (sc : Strconv) (es : List (Employee sc.Float64)) :
    csvScan (rewriteFile sc es)
      = (header :: es.map (fun e => (encodeRecord sc e).map readBack), none) := by
  have h0 : (csvWrite [] header).foldl step scanStart
      = ⟨.lineStart, false, [], [], [] ++ [header.map readBack], none⟩ := by
    unfold csvWrite
    rw [List.nil_append]
    exact scan_formatRecord _ _ _ []
  unfold csvScan rewriteFile
  rw [scan_foldl_csvWrite sc es _ _ h0, header_readBack]
  rfl

/-- Loading a rewritten file gives the employees it was written from, read
back. -/
theorem getAllEmployees_rewriteFile (sc : Strconv) (hfmt : plainFloats sc)
    (es : List (Employee sc.Float64)) (h : ∀ e ∈ es, isGoInt e.ID) :
    getAllEmployees sc (some (rewriteFile sc es)) = .ok (es.map readBackEmployee) := by
  have hscan := csvScan_rewriteFile sc es
  have hrows : es.map (fun e => (encodeRecord sc e).map readBack)
      = (es.map readBackEmployee).map (encodeRecord sc) := by
    rw [List.map_map]
    apply List.map_congr_left
    intro e _
    exact encodeRecord_readBack sc hfmt e
  rw [hrows] at hscan
  have hread : readAllLoop 0 0 (header :: (es.map readBackEmployee).map (encodeRecord sc))
      = .ok (header :: (es.map readBackEmployee).map (encodeRecord sc)) := by
    apply readAll_uniform _ _ (by decide)
    intro r hr
    obtain ⟨e, _, rfl⟩ := List.mem_map.mp hr
    rfl
  simp only [getAllEmployees, csvReadAll_of_scan _ _ hscan, hread, List.drop_succ_cons,
    List.drop_zero]
  apply decodeLoop_encode
  intro e he
  obtain ⟨e0, he0, rfl⟩ := List.mem_map.mp he
  exact h e0 he0

/-- A successful load reads an existing file that parses without error into
records that pass the field-count rule, returns Go `int` ids, and is the
decoding of the records after the first. -/
theorem getAllEmployees_ok (sc : Strconv) (fs : FileState) (C : List (Employee sc.Float64))
    (h : getAllEmployees sc fs = .ok C) :
    ∃ file R, fs = some file ∧ csvScan file = (R, none) ∧ readAllLoop 0 0 R = .ok R ∧
      decodeLoop sc (R.drop 1) = .ok C ∧ ∀ e ∈ C, isGoInt e.ID := by
  cases fs with
  | none => simp [getAllEmployees] at h
  | some file =>
    unfold getAllEmployees at h
    simp only at h
    split at h
    · cases h
    · rename_i rs hrs
      obtain ⟨hscan, hread⟩ := csvReadAll_ok _ _ hrs
      exact ⟨file, rs, rfl, hscan, hread, h, decodeLoop_isGoInt sc _ C h⟩

theorem getAllEmployees_of_scan (sc : Strconv) (file : File) (R : List Record)
    (hscan : csvScan file = (R, none)) (hread : readAllLoop 0 0 R = .ok R) :
    getAllEmployees sc (some file) = decodeLoop sc (R.drop 1) := by
  simp only [getAllEmployees, csvReadAll_of_scan _ _ hscan, hread]

theorem foldl_idIsFree {F : Type} (es : List (Employee F)) (id : Int) (b : Bool) :
    es.foldl (fun b emp => if emp.ID = id then false else b) b = true ↔
      b = true ∧ ∀ r ∈ es, r.ID ≠ id := by
  induction es generalizing b with
  | nil => simp
  | cons e rest ih =>
    simp only [List.foldl_cons, ih, List.mem_cons, forall_eq_or_imp]
    by_cases h : e.ID = id <;> simp [h]

/-- The duplicate scan of `createEmployee` leaves `b` true exactly when no
employee has the id. -/
theorem idIsFree_iff {F : Type} (es : List (Employee F)) (id : Int) :
    idIsFree es id = true ↔ ∀ r ∈ es, r.ID ≠ id := by
  unfold idIsFree
  rw [foldl_idIsFree]
  simp

/-! ## Lemmas on the lookup and on the in-place update -/

theorem findIndex_some {F : Type} (C : List (Employee F)) (i : Int) (k : Nat)
    (h : findIndex C i = some k) :
    ∃ pre r post, C = pre ++ r :: post ∧ pre.length = k ∧ r.ID = i ∧
      ∀ x ∈ pre, x.ID ≠ i := by
  induction C generalizing k with
  | nil => simp [findIndex] at h
  | cons e rest ih =>
    unfold findIndex at h
    by_cases he : e.ID = i
    · simp only [he, if_true, Option.some.injEq] at h
      exact ⟨[], e, rest, rfl, by simpa using h, he, by simp⟩
    · simp only [he, if_false, Option.map_eq_some'] at h
      obtain ⟨k', hk', hk⟩ := h
      obtain ⟨pre, r, post, hC, hlen, hr, hpre⟩ := ih k' hk'
      refine ⟨e :: pre, r, post, by rw [hC]; rfl, by simp [hlen, hk], hr, ?_⟩
      intro x hx
      rcases List.mem_cons.mp hx with hx | hx
      · rw [hx]; exact he
      · exact hpre x hx

theorem findIndex_eq_none_iff {F : Type} (C : List (Employee F)) (i : Int) :
    findIndex C i = none ↔ ∀ r ∈ C, r.ID ≠ i := by
  induction C with
  | nil => simp [findIndex]
  | cons e rest ih =>
    unfold findIndex
    by_cases he : e.ID = i
    · simp [he]
    · simp [he, ih]

theorem findIndex_of_mem {F : Type} (C : List (Employee F)) (i : Int)
    (h : ∃ r ∈ C, r.ID = i) : ∃ k, findIndex C i = some k := by
  cases hf : findIndex C i with
  | some k => exact ⟨k, rfl⟩
  | none =>
    obtain ⟨r, hr, hid⟩ := h
    exact absurd hid ((findIndex_eq_none_iff C i).mp hf r hr)

theorem modifyAt_append {α : Type} (f : α → α) (pre : List α) (r : α) (post : List α) :
    modifyAt f pre.length (pre ++ r :: post) = pre ++ f r :: post := by
  induction pre with
  | nil => rfl
  | cons a pre ih => simp [modifyAt, ih]

theorem applyUpdates_append {F : Type} (m : List (String × Value F))
    (pre : List (Employee F)) (r : Employee F) (post : List (Employee F)) :
    applyUpdates m pre.length (pre ++ r :: post)
      = pre ++ m.foldl (fun e kv => applyField kv.1 kv.2 e) r :: post := by
  unfold applyUpdates
  induction m generalizing r with
  | nil => rfl
  | cons kv m ih =>
    simp only [List.foldl_cons]
    rw [modifyAt_append, ih]

theorem eraseIdx_append_cons {α : Type} (pre : List α) (r : α) (post : List α) :
    (pre ++ r :: post).eraseIdx pre.length = pre ++ post := by
  induction pre with
  | nil => rfl
  | cons a pre ih => simp [List.eraseIdx, ih]

theorem applyField_ID {F : Type} (key : String) (value : Value F) (e : Employee F) :
    (applyField key value e).ID = e.ID := by
  unfold applyField
  repeat' split
  all_goals rfl

theorem foldl_applyField_ID {F : Type} (m : List (String × Value F)) (e : Employee F) :
    (m.foldl (fun e kv => applyField kv.1 kv.2 e) e).ID = e.ID := by
  induction m generalizing e with
  | nil => rfl
  | cons kv m ih =>
    simp only [List.foldl_cons]
    rw [ih, applyField_ID]

/-- A valid entry sets its field to the value and leaves the others. -/
theorem applyField_valid {F : Type} (key : String) (value : Value F) (e : Employee F)
    (h : validUpdate key value) :
    fieldValue key (applyField key value e) = some value ∧
    ∀ k, k ≠ key → fieldValue k (applyField key value e) = fieldValue k e := by
  rcases h with ⟨hk, s, hs, rfl⟩ | ⟨rfl, x, rfl⟩
  · simp only [stringFields, List.mem_cons, List.mem_singleton, List.not_mem_nil, or_false] at hk
    rcases hk with rfl | rfl | rfl | rfl | rfl | rfl | rfl
    all_goals
      refine ⟨by simp [fieldValue, applyField, hs], ?_⟩
      intro k hk
      simp [fieldValue, applyField, hs, hk]
  · refine ⟨by simp [fieldValue, applyField], ?_⟩
    intro k hk
    simp [fieldValue, applyField, hk]

/-- An ignored entry leaves the employee as it is. -/
theorem applyField_ignored {F : Type} (key : String) (value : Value F) (e : Employee F)
    (h : ignoredUpdate key value) : applyField key value e = e := by
  rcases h with ⟨hk, rfl⟩ | ⟨hk, hv⟩ | ⟨rfl, hv⟩ | ⟨hk, hs⟩
  · simp only [stringFields, List.mem_cons, List.mem_singleton, List.not_mem_nil, or_false] at hk
    rcases hk with rfl | rfl | rfl | rfl | rfl | rfl | rfl <;> simp [applyField]
  · simp only [stringFields, List.mem_cons, List.mem_singleton, List.not_mem_nil, or_false] at hk
    cases value with
    | str s => exact absurd rfl (hv s)
    | _ => rcases hk with rfl | rfl | rfl | rfl | rfl | rfl | rfl <;> simp [applyField]
  · cases value with
    | float64 x => exact absurd rfl (hv x)
    | _ => simp [applyField]
  · simp only [stringFields, List.mem_cons, List.mem_singleton, List.not_mem_nil, or_false,
      not_or] at hk
    obtain ⟨h1, h2, h3, h4, h5, h6, h7⟩ := hk
    simp [applyField, h1, h2, h3, h4, h5, h6, h7, hs]

theorem foldl_applyField_ignored {F : Type} (m : List (String × Value F)) (e : Employee F)
    (h : ∀ kv ∈ m, ignoredUpdate kv.1 kv.2) :
    m.foldl (fun e kv => applyField kv.1 kv.2 e) e = e := by
  induction m with
  | nil => rfl
  | cons kv m ih =>
    simp only [List.foldl_cons]
    rw [applyField_ignored _ _ _ (h kv (List.mem_cons_self _ _))]
    exact ih (fun x hx => h x (List.mem_cons_of_mem _ hx))

theorem decimalStrconv_plain : plainFloats decimalStrconv := by
  intro x
  exact readBack_of_no_cr _ (Itoa_no_cr (Int.ofNat x.val))

/-! ## Create -/

/-- C1, counterexample. The file of `ann` whose last line has no final newline
loads as `[ann]`; `createEmployee` of `bob`, whose id no record has, returns
`nil` and adds the line of `bob` to the characters of the file, which glues it
to the last line: the following load fails on the field count of that row and
does not return `[ann, bob]`. -/
theorem createEmployee_on_unterminated_file :
    getAllEmployees decimalStrconv (some openAnnFile) = .ok [ann] ∧
    (∀ r ∈ [ann], r.ID ≠ bob.ID) ∧
    createEmployee decimalStrconv bob (some openAnnFile)
      = (none, some (openAnnFile ++ formatRecord bobRecord)) ∧
    getAllEmployees decimalStrconv (createEmployee decimalStrconv bob (some openAnnFile)).2
      = .error (.fieldCount 1) :=
  ⟨rfl, by decide, rfl, rfl⟩

/-- C1, amended. On a file that ends with a newline, whose first row has
exactly 9 fields and on which the load succeeds with `C`, `createEmployee` of a
candidate (its id a Go `int`) whose id no record of `C` has returns `nil` and
adds the line of the candidate's record at the end of the file: the rows of the
file stay as they were, the first row included, and the following load returns
`C` with the candidate appended as the last element, its text fields as the
reader gives them back (CR LF read as LF), which is the candidate itself when
none of its fields holds CR LF. -/
theorem createEmployee_appends (sc : Strconv) (hfmt : plainFloats sc) (file : File)
    (first : Record) (rest : List Record)
    (C : List (Employee sc.Float64)) (e : Employee sc.Float64)
    (hclosed : closedFile file) (hscan : csvScan file = (first :: rest, none))
    (h9 : first.length = 9) (hint : isGoInt e.ID)
    (hload : getAllEmployees sc (some file) = .ok C)
    (hfree : ∀ r ∈ C, r.ID ≠ e.ID) :
    createEmployee sc e (some file) = (none, some (file ++ formatRecord (encodeRecord sc e))) ∧
    csvScan (file ++ formatRecord (encodeRecord sc e))
      = (first :: (rest ++ [encodeRecord sc (readBackEmployee e)]), none) ∧
    getAllEmployees sc (createEmployee sc e (some file)).2
      = .ok (C ++ [readBackEmployee e]) ∧
    (keptEmployee e →
      getAllEmployees sc (createEmployee sc e (some file)).2 = .ok (C ++ [e])) := by
  obtain ⟨file', R, hfile, hscan', hread, hdec, _⟩ := getAllEmployees_ok sc _ C hload
  cases hfile
  rw [hscan] at hscan'
  cases hscan'
  have hpos : 0 < first.length := by omega
  have hlen := readAll_lengths first rest _ hpos hread
  have hcreate : createEmployee sc e (some file)
      = (none, some (file ++ formatRecord (encodeRecord sc e))) := by
    simp [createEmployee, hload, (idIsFree_iff C e.ID).mpr hfree, csvWrite]
  have hscan2 : csvScan (file ++ formatRecord (encodeRecord sc e))
      = (first :: (rest ++ [encodeRecord sc (readBackEmployee e)]), none) := by
    have := csvScan_append file (first :: rest) (Itoa e.ID) e.FirstName
      [e.LastName, e.Email, e.Password, e.PhoneNo, e.Role, sc.FormatFloat e.Salary, e.Birthdate]
      (closedFile_cases file hclosed) hscan
    rw [← encodeRecord_readBack sc hfmt e]
    exact this
  have hread2 : readAllLoop 0 0 (first :: (rest ++ [encodeRecord sc (readBackEmployee e)]))
      = .ok (first :: (rest ++ [encodeRecord sc (readBackEmployee e)])) := by
    apply readAll_uniform _ _ hpos
    intro r hr
    rcases List.mem_append.mp hr with hr | hr
    · exact hlen r hr
    · simp only [List.mem_singleton] at hr
      rw [hr, encodeRecord_length, h9]
  have hload2 : getAllEmployees sc (some (file ++ formatRecord (encodeRecord sc e)))
      = .ok (C ++ [readBackEmployee e]) := by
    rw [getAllEmployees_of_scan sc _ _ hscan2 hread2]
    simp only [List.drop_succ_cons, List.drop_zero] at hdec ⊢
    exact decodeLoop_append sc rest _ C _ hdec (by rw [encodeRecord_length]; omega)
      (decodeRecord_encodeRecord sc _ hint)
  refine ⟨hcreate, hscan2, ?_, ?_⟩
  · rw [hcreate]
    exact hload2
  · intro hk
    rw [hcreate]
    rw [readBackEmployee_of_kept e hk] at hload2
    exact hload2

/-- C1, witness: `bob` is created in the file that holds `ann`. -/
theorem createEmployee_appends_witness :
    createEmployee decimalStrconv bob (some annFile)
      = (none, some (annFile ++ formatRecord (encodeRecord decimalStrconv bob))) ∧
    csvScan (annFile ++ formatRecord (encodeRecord decimalStrconv bob))
      = (header :: ([annRecord] ++ [encodeRecord decimalStrconv (readBackEmployee bob)]), none) ∧
    getAllEmployees decimalStrconv (createEmployee decimalStrconv bob (some annFile)).2
      = .ok ([ann] ++ [readBackEmployee bob]) ∧
    (keptEmployee bob →
      getAllEmployees decimalStrconv (createEmployee decimalStrconv bob (some annFile)).2
        = .ok ([ann] ++ [bob])) :=
  createEmployee_appends decimalStrconv decimalStrconv_plain annFile header [annRecord] [ann] bob
    (by decide) (by decide) (by decide) (by decide) (by rfl) (by decide)

/-- C2. When the load succeeds with `C` and some record of `C` has the
candidate's id, `createEmployee` returns `nil` and leaves the file as it was, so
that the following load returns `C` again. -/
theorem createEmployee_duplicate_id (sc : Strconv) (fs : FileState)
    (C : List (Employee sc.Float64)) (e : Employee sc.Float64)
    (hload : getAllEmployees sc fs = .ok C) (hdup : ∃ r ∈ C, r.ID = e.ID) :
    createEmployee sc e fs = (none, fs) ∧
    getAllEmployees sc (createEmployee sc e fs).2 = .ok C := by
  obtain ⟨file, _, hfile, _, _, _, _⟩ := getAllEmployees_ok sc _ C hload
  subst hfile
  have hb : idIsFree C e.ID = false := by
    cases hfree : idIsFree C e.ID with
    | false => rfl
    | true =>
      obtain ⟨r, hr, hid⟩ := hdup
      exact absurd hid ((idIsFree_iff C e.ID).mp hfree r hr)
  have hcreate : createEmployee sc e (some file) = (none, some file) := by
    simp [createEmployee, hload, hb]
  exact ⟨hcreate, by rw [hcreate]; exact hload⟩

/-- C2, witness: `ann` is created again in the file that holds `ann`. -/
theorem createEmployee_duplicate_id_witness :
    createEmployee decimalStrconv ann (some annFile) = (none, some annFile) ∧
    getAllEmployees decimalStrconv (createEmployee decimalStrconv ann (some annFile)).2
      = .ok [ann] :=
  createEmployee_duplicate_id decimalStrconv (some annFile) [ann] ann (by rfl)
    ⟨ann, by simp, rfl⟩

/-- C3, the code at the failing input. When the file does not exist
`createEmployee` returns the error of `os.Open` that `getAllEmployees` reports
and creates no file, whatever the candidate. -/
theorem createEmployee_absent_file (sc : Strconv) (e : Employee sc.Float64) :
    createEmployee sc e none = (some .notExist, none) := rfl

/-! ## Update and delete -/

/-- A valid entry that holds no CR LF keeps the texts of an employee free of
CR LF. -/
theorem applyField_kept {F : Type} (key : String) (value : Value F) (e : Employee F)
    (hval : validUpdate key value) (he : keptEmployee e) (hv : keptValue value) :
    keptEmployee (applyField key value e) := by
  obtain ⟨h1, h2, h3, h4, h5, h6, h7⟩ := he
  rcases hval with ⟨hk, s, hs, rfl⟩ | ⟨rfl, x, rfl⟩
  · have hs2 : keptByCsv s := hv
    simp only [stringFields, List.mem_cons, List.mem_singleton, List.not_mem_nil, or_false] at hk
    rcases hk with rfl | rfl | rfl | rfl | rfl | rfl | rfl
    all_goals simp [applyField, keptEmployee, hs, hs2, h1, h2, h3, h4, h5, h6, h7]
  · simp [applyField, keptEmployee, h1, h2, h3, h4, h5, h6, h7]

/-- C4, counterexample. On the file of `ann` and `bob`, the update of id 1 with
the entry `role: "X\r\nY"`, a non-empty string, returns `nil`, and the
following load gives the role `X` LF `Y`, not the supplied value `X` CR LF
`Y`. -/
theorem updateEmployee_crlf_value :
    validUpdate "role" (Value.str "X\r\nY" : Value decimalStrconv.Float64) ∧
    getAllEmployees decimalStrconv (some annBobFile) = .ok [ann, bob] ∧
    (updateEmployee decimalStrconv 1 [("role", .str "X\r\nY")] (some annBobFile)).1 = none ∧
    getAllEmployees decimalStrconv
      (updateEmployee decimalStrconv 1 [("role", .str "X\r\nY")] (some annBobFile)).2
        = .ok [{ ann with Role := "X\nY" }, bob] ∧
    ("X\nY" : String) ≠ "X\r\nY" :=
  ⟨Or.inl ⟨by decide, "X\r\nY", by decide, rfl⟩, rfl, rfl, rfl, by decide⟩

/-- C4, amended. When the load succeeds with `C` and some record of `C` has id
`i`, `updateEmployee` with the single entry `key: value`, a non-empty string
for a string field or a float for `salary`, returns `nil`, and the following
load returns, every record with its text fields as the reader gives them back
(CR LF read as LF), the collection `C` with its first record of id `i`
replaced, at the same place, by a record with the same id whose field `key` is
`value` and whose other fields are unchanged; when neither the value nor a
field of `C` holds CR LF the load returns that collection itself. -/
theorem updateEmployee_sets_one_field (sc : Strconv) (hfmt : plainFloats sc) (fs : FileState)
    (C : List (Employee sc.Float64)) (i : Int) (key : String) (value : Value sc.Float64)
    (hload : getAllEmployees sc fs = .ok C) (hin : ∃ r ∈ C, r.ID = i)
    (hval : validUpdate key value) :
    (updateEmployee sc i [(key, value)] fs).1 = none ∧
    ∃ pre r r' post, C = pre ++ r :: post ∧ (∀ x ∈ pre, x.ID ≠ i) ∧ r.ID = i ∧
      r'.ID = r.ID ∧ fieldValue key r' = some value ∧
      (∀ k, k ≠ key → fieldValue k r' = fieldValue k r) ∧
      getAllEmployees sc (updateEmployee sc i [(key, value)] fs).2
        = .ok ((pre ++ r' :: post).map readBackEmployee) ∧
      ((∀ e ∈ C, keptEmployee e) → keptValue value →
        getAllEmployees sc (updateEmployee sc i [(key, value)] fs).2
          = .ok (pre ++ r' :: post)) := by
  obtain ⟨_, _, _, _, _, _, hints⟩ := getAllEmployees_ok sc _ C hload
  obtain ⟨k, hk⟩ := findIndex_of_mem C i hin
  obtain ⟨pre, r, post, hC, hlen, hr, hpre⟩ := findIndex_some C i k hk
  have hupd : updateEmployee sc i [(key, value)] fs
      = (none, some (rewriteFile sc (pre ++ applyField key value r :: post))) := by
    simp only [updateEmployee, hload, hk]
    rw [← hlen, hC, applyUpdates_append]
    rfl
  have hints2 : ∀ e ∈ pre ++ applyField key value r :: post, isGoInt e.ID := by
    intro e he
    rcases List.mem_append.mp he with he | he
    · exact hints e (by rw [hC]; exact List.mem_append_left _ he)
    · rcases List.mem_cons.mp he with he | he
      · rw [he, applyField_ID]
        exact hints r (by rw [hC]; simp)
      · exact hints e (by rw [hC]; simp [he])
  obtain ⟨hset, hothers⟩ := applyField_valid key value r hval
  have hload2 := getAllEmployees_rewriteFile sc hfmt _ hints2
  refine ⟨by rw [hupd], pre, r, applyField key value r, post, hC, hpre, hr,
    applyField_ID key value r, hset, hothers, ?_, ?_⟩
  · rw [hupd]
    exact hload2
  · intro hkept hv
    rw [hupd]
    rw [map_readBackEmployee_of_kept] at hload2
    · exact hload2
    · intro e he
      rcases List.mem_append.mp he with he | he
      · exact hkept e (by rw [hC]; exact List.mem_append_left _ he)
      · rcases List.mem_cons.mp he with he | he
        · rw [he]
          exact applyField_kept key value r hval (hkept r (by rw [hC]; simp)) hv
        · exact hkept e (by rw [hC]; simp [he])

/-- C4, witness: `role` is set to `"X"`, and `salary` to 60000, for the
employee with id 1. -/
theorem updateEmployee_sets_one_field_witness :
    ((updateEmployee decimalStrconv 1 [("role", .str "X")] (some annBobFile)).1 = none ∧
      ∃ pre r r' post, [ann, bob] = pre ++ r :: post ∧ (∀ x ∈ pre, x.ID ≠ 1) ∧ r.ID = 1 ∧
        r'.ID = r.ID ∧ fieldValue "role" r' = some (.str "X") ∧
        (∀ k, k ≠ "role" → fieldValue k r' = fieldValue k r) ∧
        getAllEmployees decimalStrconv
          (updateEmployee decimalStrconv 1 [("role", .str "X")] (some annBobFile)).2
            = .ok ((pre ++ r' :: post).map readBackEmployee) ∧
        ((∀ e ∈ [ann, bob], keptEmployee e) → keptValue (Value.str "X" : Value decimalStrconv.Float64) →
          getAllEmployees decimalStrconv
            (updateEmployee decimalStrconv 1 [("role", .str "X")] (some annBobFile)).2
              = .ok (pre ++ r' :: post))) ∧
    ((updateEmployee decimalStrconv 1 [("salary", .float64 (whole 60000 (by decide)))]
        (some annBobFile)).1 = none ∧
      ∃ pre r r' post, [ann, bob] = pre ++ r :: post ∧ (∀ x ∈ pre, x.ID ≠ 1) ∧ r.ID = 1 ∧
        r'.ID = r.ID ∧
        fieldValue "salary" r' = some (.float64 (whole 60000 (by decide))) ∧
        (∀ k, k ≠ "salary" → fieldValue k r' = fieldValue k r) ∧
        getAllEmployees decimalStrconv
          (updateEmployee decimalStrconv 1 [("salary", .float64 (whole 60000 (by decide)))]
            (some annBobFile)).2 = .ok ((pre ++ r' :: post).map readBackEmployee) ∧
        ((∀ e ∈ [ann, bob], keptEmployee e) →
          keptValue (Value.float64 (whole 60000 (by decide)) : Value decimalStrconv.Float64) →
          getAllEmployees decimalStrconv
            (updateEmployee decimalStrconv 1 [("salary", .float64 (whole 60000 (by decide)))]
              (some annBobFile)).2 = .ok (pre ++ r' :: post))) :=
  ⟨updateEmployee_sets_one_field decimalStrconv decimalStrconv_plain (some annBobFile)
      [ann, bob] 1 "role" (.str "X") (by rfl) ⟨ann, by simp, rfl⟩
      (Or.inl ⟨by decide, "X", by decide, rfl⟩),
    updateEmployee_sets_one_field decimalStrconv decimalStrconv_plain (some annBobFile)
      [ann, bob] 1 "salary" (.float64 (whole 60000 (by decide))) (by rfl) ⟨ann, by simp, rfl⟩
      (Or.inr ⟨rfl, _, rfl⟩)⟩

/-- C5, counterexample. The file whose first record has a first name read as
`An` CR LF `n` loads as `[annCrLf, bob]`; the update of id 1 with the entry
`firstName: ""`, which is ignored, returns `nil`, and the following load
returns `[annLf, bob]`: the first name is now `An` LF `n`, and the collection
is not the one loaded before. -/
theorem updateEmployee_ignored_changes_crlf :
    getAllEmployees decimalStrconv (some crLfFile) = .ok [annCrLf, bob] ∧
    ignoredUpdate "firstName" (Value.str "" : Value decimalStrconv.Float64) ∧
    (updateEmployee decimalStrconv 1 [("firstName", .str "")] (some crLfFile)).1 = none ∧
    getAllEmployees decimalStrconv
      (updateEmployee decimalStrconv 1 [("firstName", .str "")] (some crLfFile)).2
        = .ok [annLf, bob] ∧
    annLf.FirstName ≠ annCrLf.FirstName :=
  ⟨rfl, Or.inl ⟨by decide, rfl⟩, rfl, rfl, by decide⟩

/-- C5, amended. When the load succeeds with `C` and some record of `C` has id
`i`, `updateEmployee` with a mapping all of whose entries are ignored (an empty
string for a string field, a value of the wrong type, a key that is not one of
the eight updatable names, `"id"` among them) returns `nil`, and the following
load returns the records of `C` with their text fields as the reader gives
them back after the rewrite (CR LF read as LF): `C` itself when no field of `C`
holds CR LF. -/
theorem updateEmployee_ignored_entries (sc : Strconv) (hfmt : plainFloats sc)
    (fs : FileState)
    (C : List (Employee sc.Float64)) (i : Int) (m : List (String × Value sc.Float64))
    (hload : getAllEmployees sc fs = .ok C) (hin : ∃ r ∈ C, r.ID = i)
    (hign : ∀ kv ∈ m, ignoredUpdate kv.1 kv.2) :
    (updateEmployee sc i m fs).1 = none ∧
    getAllEmployees sc (updateEmployee sc i m fs).2 = .ok (C.map readBackEmployee) ∧
    ((∀ e ∈ C, keptEmployee e) →
      getAllEmployees sc (updateEmployee sc i m fs).2 = .ok C) := by
  obtain ⟨_, _, _, _, _, _, hints⟩ := getAllEmployees_ok sc _ C hload
  obtain ⟨k, hk⟩ := findIndex_of_mem C i hin
  obtain ⟨pre, r, post, hC, hlen, _, _⟩ := findIndex_some C i k hk
  have hupd : updateEmployee sc i m fs = (none, some (rewriteFile sc C)) := by
    simp only [updateEmployee, hload, hk]
    rw [← hlen]
    conv_lhs => rw [hC, applyUpdates_append, foldl_applyField_ignored m r hign, ← hC]
  have hload2 := getAllEmployees_rewriteFile sc hfmt C hints
  rw [hupd]
  refine ⟨rfl, hload2, ?_⟩
  intro hkept
  rw [map_readBackEmployee_of_kept C hkept] at hload2
  exact hload2

/-- C5, witness: an empty first name, a text for the salary, a number for the
role and the key `id` leave the collection as it is. -/
theorem updateEmployee_ignored_entries_witness :
    (updateEmployee decimalStrconv 1
      [("firstName", .str ""), ("salary", .str "60000"),
       ("role", .float64 (whole 7 (by decide))), ("id", .float64 (whole 9 (by decide)))]
      (some annBobFile)).1 = none ∧
    getAllEmployees decimalStrconv (updateEmployee decimalStrconv 1
      [("firstName", .str ""), ("salary", .str "60000"),
       ("role", .float64 (whole 7 (by decide))), ("id", .float64 (whole 9 (by decide)))]
      (some annBobFile)).2 = .ok ([ann, bob].map readBackEmployee) ∧
    ((∀ e ∈ [ann, bob], keptEmployee e) →
      getAllEmployees decimalStrconv (updateEmployee decimalStrconv 1
        [("firstName", .str ""), ("salary", .str "60000"),
         ("role", .float64 (whole 7 (by decide))), ("id", .float64 (whole 9 (by decide)))]
        (some annBobFile)).2 = .ok [ann, bob]) :=
  updateEmployee_ignored_entries decimalStrconv decimalStrconv_plain (some annBobFile)
    [ann, bob] 1 _ (by rfl)
    ⟨ann, by simp, rfl⟩ (by
      intro kv hkv
      simp only [List.mem_cons, List.mem_singleton, List.not_mem_nil, or_false] at hkv
      rcases hkv with rfl | rfl | rfl | rfl
      · exact Or.inl ⟨by decide, rfl⟩
      · exact Or.inr (Or.inr (Or.inl ⟨rfl, fun x h => by cases h⟩))
      · exact Or.inr (Or.inl ⟨by decide, fun x h => by cases h⟩)
      · exact Or.inr (Or.inr (Or.inr ⟨by decide, by decide⟩)))

/-- C6, counterexample. The file whose first record has a first name read as
`An` CR LF `n` loads as `[annCrLf, bob]`; `deleteEmployee` of id 2 returns
`nil` and the following load returns `[annLf]`: the record that is kept is not
unchanged, its first name is now `An` LF `n`. -/
theorem deleteEmployee_changes_crlf :
    getAllEmployees decimalStrconv (some crLfFile) = .ok [annCrLf, bob] ∧
    (deleteEmployee decimalStrconv 2 (some crLfFile)).1 = none ∧
    getAllEmployees decimalStrconv (deleteEmployee decimalStrconv 2 (some crLfFile)).2
      = .ok [annLf] ∧
    annLf.FirstName ≠ annCrLf.FirstName :=
  ⟨rfl, rfl, rfl, by decide⟩

/-- C6, amended. When the load succeeds with `C` and some record of `C` has id
`i`, `deleteEmployee` returns `nil` and the following load returns `C` without
its first record of id `i`: the records before it and all the records after
it, later records of id `i` included, in their order, each with its text
fields as the reader gives them back after the rewrite (CR LF read as LF), and
so unchanged when no field of `C` holds CR LF. -/
theorem deleteEmployee_removes_first_match (sc : Strconv) (hfmt : plainFloats sc)
    (fs : FileState) (C : List (Employee sc.Float64)) (i : Int)
    (hload : getAllEmployees sc fs = .ok C) (hin : ∃ r ∈ C, r.ID = i) :
    (deleteEmployee sc i fs).1 = none ∧
    ∃ pre r post, C = pre ++ r :: post ∧ (∀ x ∈ pre, x.ID ≠ i) ∧ r.ID = i ∧
      getAllEmployees sc (deleteEmployee sc i fs).2
        = .ok ((pre ++ post).map readBackEmployee) ∧
      ((∀ e ∈ C, keptEmployee e) →
        getAllEmployees sc (deleteEmployee sc i fs).2 = .ok (pre ++ post)) := by
  obtain ⟨_, _, _, _, _, _, hints⟩ := getAllEmployees_ok sc _ C hload
  obtain ⟨k, hk⟩ := findIndex_of_mem C i hin
  obtain ⟨pre, r, post, hC, hlen, hr, hpre⟩ := findIndex_some C i k hk
  have hdel : deleteEmployee sc i fs = (none, some (rewriteFile sc (pre ++ post))) := by
    simp only [deleteEmployee, hload, hk]
    rw [← hlen, hC, eraseIdx_append_cons]
  have hsub : ∀ e ∈ pre ++ post, e ∈ C := by
    intro e he
    rw [hC]
    rcases List.mem_append.mp he with he | he
    · exact List.mem_append_left _ he
    · exact List.mem_append_right _ (List.mem_cons_of_mem _ he)
  have hload2 := getAllEmployees_rewriteFile sc hfmt _ (fun e he => hints e (hsub e he))
  refine ⟨by rw [hdel], pre, r, post, hC, hpre, hr, ?_, ?_⟩
  · rw [hdel]
    exact hload2
  · intro hkept
    rw [hdel]
    rw [map_readBackEmployee_of_kept _ (fun e he => hkept e (hsub e he))] at hload2
    exact hload2

/-- C6, witness: in a file where two records have id 1, deleting id 1 removes
the first of them. -/
theorem deleteEmployee_removes_first_match_witness :
    (deleteEmployee decimalStrconv 1 (some annBobAnnFile)).1 = none ∧
    ∃ pre r post, [ann, bob, ann] = pre ++ r :: post ∧ (∀ x ∈ pre, x.ID ≠ 1) ∧ r.ID = 1 ∧
      getAllEmployees decimalStrconv (deleteEmployee decimalStrconv 1 (some annBobAnnFile)).2
        = .ok ((pre ++ post).map readBackEmployee) ∧
      ((∀ e ∈ [ann, bob, ann], keptEmployee e) →
        getAllEmployees decimalStrconv (deleteEmployee decimalStrconv 1 (some annBobAnnFile)).2
          = .ok (pre ++ post)) :=
  deleteEmployee_removes_first_match decimalStrconv decimalStrconv_plain
    (some annBobAnnFile) [ann, bob, ann] 1 (by rfl) ⟨ann, by simp, rfl⟩

/-- C7. When the load succeeds with `C`, `updateEmployee` (with any mapping)
and `deleteEmployee` return the error `employee with ID i not found`, `i` in
decimal, exactly when no record of `C` has id `i`; when some record has it they
return `nil`. -/
theorem notFound_iff_id_absent (sc : Strconv) (fs : FileState)
    (C : List (Employee sc.Float64)) (i : Int) (m : List (String × Value sc.Float64))
    (hload : getAllEmployees sc fs = .ok C) :
    ((updateEmployee sc i m fs).1
        = some (.errorf ("employee with ID " ++ Itoa i ++ " not found")) ↔
      ∀ r ∈ C, r.ID ≠ i) ∧
    ((deleteEmployee sc i fs).1
        = some (.errorf ("employee with ID " ++ Itoa i ++ " not found")) ↔
      ∀ r ∈ C, r.ID ≠ i) ∧
    ((∃ r ∈ C, r.ID = i) →
      (updateEmployee sc i m fs).1 = none ∧ (deleteEmployee sc i fs).1 = none) := by
  cases hk : findIndex C i with
  | none =>
    have habs := (findIndex_eq_none_iff C i).mp hk
    have hu : (updateEmployee sc i m fs).1
        = some (.errorf ("employee with ID " ++ Itoa i ++ " not found")) := by
      simp [updateEmployee, hload, hk, notFoundError]
    have hd : (deleteEmployee sc i fs).1
        = some (.errorf ("employee with ID " ++ Itoa i ++ " not found")) := by
      simp [deleteEmployee, hload, hk, notFoundError]
    refine ⟨⟨fun _ => habs, fun _ => hu⟩, ⟨fun _ => habs, fun _ => hd⟩, ?_⟩
    rintro ⟨r, hr, hid⟩
    exact absurd hid (habs r hr)
  | some k =>
    have hpres : ¬ ∀ r ∈ C, r.ID ≠ i := by
      intro habs
      rw [(findIndex_eq_none_iff C i).mpr habs] at hk
      cases hk
    have hu : (updateEmployee sc i m fs).1 = none := by
      simp [updateEmployee, hload, hk]
    have hd : (deleteEmployee sc i fs).1 = none := by
      simp [deleteEmployee, hload, hk]
    refine ⟨⟨fun h => ?_, fun h => absurd h hpres⟩, ⟨fun h => ?_, fun h => absurd h hpres⟩,
      fun _ => ⟨hu, hd⟩⟩
    · rw [hu] at h
      cases h
    · rw [hd] at h
      cases h

/-- C7, witness: id 3 is in no record of the file of `ann` and `bob`. -/
theorem notFound_iff_id_absent_witness :
    ((updateEmployee decimalStrconv 3 [("role", .str "X")] (some annBobFile)).1
        = some (.errorf ("employee with ID " ++ Itoa 3 ++ " not found")) ↔
      ∀ r ∈ [ann, bob], r.ID ≠ 3) ∧
    ((deleteEmployee decimalStrconv 3 (some annBobFile)).1
        = some (.errorf ("employee with ID " ++ Itoa 3 ++ " not found")) ↔
      ∀ r ∈ [ann, bob], r.ID ≠ 3) ∧
    ((∃ r ∈ [ann, bob], r.ID = 3) →
      (updateEmployee decimalStrconv 3 [("role", .str "X")] (some annBobFile)).1 = none ∧
      (deleteEmployee decimalStrconv 3 (some annBobFile)).1 = none) :=
  notFound_iff_id_absent decimalStrconv (some annBobFile) [ann, bob] 3 [("role", .str "X")]
    (by rfl)

/-! ## The codec round trip -/

/-- C8, counterexample. The row of `ann` with the id written `007` has 9 fields
and a salary that parses, and decoding then encoding it gives a row whose first
field is `7`: the row is not given back. -/
theorem reencode_padded_id_differs :
    paddedRecord.length = 9 ∧
    decimalStrconv.ParseFloat (paddedRecord.getD 7 "") = .ok (whole 50000 (by decide)) ∧
    reencode decimalStrconv paddedRecord
      = some ["7", "Ann", "Lee", "ann@example.com", "pw1", "555-0101", "dev", "50000",
          "1990-01-01"] ∧
    reencode decimalStrconv paddedRecord ≠ some paddedRecord := by
  refine ⟨rfl, rfl, rfl, ?_⟩
  decide

/-- C8, amended. For a row of exactly 9 fields whose column 7 parses as the
salary `x`, decoding then encoding gives the row with column 0 replaced by the
decimal text of the id that `Atoi` reads and column 7 by the text of `x`,
columns 1 to 6 and 8 as they were; the result is the row itself exactly when
columns 0 and 7 already are these texts, which is so for every row that is the
encoding of an employee. -/
theorem reencode_canonical (sc : Strconv) (row : Record) (x : sc.Float64)
    (hlen : row.length = 9) (hx : sc.ParseFloat (row.getD 7 "") = .ok x) :
    reencode sc row
      = some [Itoa (Atoi (row.getD 0 "")).1, row.getD 1 "", row.getD 2 "", row.getD 3 "",
          row.getD 4 "", row.getD 5 "", row.getD 6 "", sc.FormatFloat x, row.getD 8 ""] ∧
    (reencode sc row = some row ↔
      row.getD 0 "" = Itoa (Atoi (row.getD 0 "")).1 ∧ row.getD 7 "" = sc.FormatFloat x) ∧
    ((∃ e : Employee sc.Float64, isGoInt e.ID ∧ row = encodeRecord sc e) →
      reencode sc row = some row) := by
  have hre : reencode sc row
      = some [Itoa (Atoi (row.getD 0 "")).1, row.getD 1 "", row.getD 2 "", row.getD 3 "",
          row.getD 4 "", row.getD 5 "", row.getD 6 "", sc.FormatFloat x, row.getD 8 ""] := by
    unfold reencode decodeRecord
    simp only [hx]
    rfl
  match row, hlen with
  | [c0, c1, c2, c3, c4, c5, c6, c7, c8], _ =>
    refine ⟨hre, ?_, ?_⟩
    · rw [hre]
      simp only [List.getD_cons_zero, List.getD_cons_succ, Option.some.injEq, List.cons.injEq,
        true_and, and_true]
      constructor
      · rintro ⟨h0, h7⟩
        exact ⟨h0.symm, h7.symm⟩
      · rintro ⟨h0, h7⟩
        exact ⟨h0.symm, h7.symm⟩
    · rintro ⟨e, hint, he⟩
      rw [he]
      simp [reencode, decodeRecord_encodeRecord sc e hint]

/-- C8, witness: the record of `ann` is given back. -/
theorem reencode_canonical_witness :
    reencode decimalStrconv annRecord
      = some [Itoa (Atoi (annRecord.getD 0 "")).1, annRecord.getD 1 "", annRecord.getD 2 "",
          annRecord.getD 3 "", annRecord.getD 4 "", annRecord.getD 5 "", annRecord.getD 6 "",
          decimalStrconv.FormatFloat (whole 50000 (by decide)), annRecord.getD 8 ""] ∧
    (reencode decimalStrconv annRecord = some annRecord ↔
      annRecord.getD 0 "" = Itoa (Atoi (annRecord.getD 0 "")).1 ∧
      annRecord.getD 7 "" = decimalStrconv.FormatFloat (whole 50000 (by decide))) ∧
    ((∃ e : Employee decimalStrconv.Float64, isGoInt e.ID ∧ annRecord = encodeRecord decimalStrconv e) →
      reencode decimalStrconv annRecord = some annRecord) :=
  reencode_canonical decimalStrconv annRecord (whole 50000 (by decide)) (by decide) (by rfl)

/-! ## Search -/

theorem stringsContains_iff (s p : List Char) :
    stringsContains s p = true ↔ ∃ before after, s = before ++ p ++ after := by
  induction s with
  | nil =>
    simp only [stringsContains, List.isEmpty_iff]
    constructor
    · rintro rfl
      exact ⟨[], [], rfl⟩
    · rintro ⟨a, b, h⟩
      have h2 := congrArg List.length h
      simp only [List.length_nil, List.length_append] at h2
      exact List.eq_nil_of_length_eq_zero (by omega)
  | cons c cs ih =>
    simp only [stringsContains, Bool.or_eq_true, List.isPrefixOf_iff_prefix, ih]
    constructor
    · rintro (⟨t, ht⟩ | ⟨a, b, h⟩)
      · exact ⟨[], t, by simpa using ht.symm⟩
      · exact ⟨c :: a, b, by simp [h]⟩
    · rintro ⟨a, b, h⟩
      cases a with
      | nil => exact Or.inl ⟨b, by simpa using h.symm⟩
      | cons a0 a =>
        simp only [List.cons_append, List.cons.injEq] at h
        exact Or.inr ⟨a, b, h.2⟩

/-- The function `containsSubstring` decides the occurrence of the pattern in
the text, case ignored. -/
theorem containsSubstring_iff (lower : Char → Char) (s pattern : String) :
    containsSubstring lower s pattern = true ↔ occursIgnoringCase lower pattern s := by
  unfold containsSubstring occursIgnoringCase
  exact stringsContains_iff _ _

theorem containsSubstring_empty (lower : Char → Char) (s : String) :
    containsSubstring lower s "" = true := by
  rw [containsSubstring_iff]
  exact ⟨[], (ToLower lower s).data, by simp [ToLower]⟩

theorem matchLoop_eq_filter {F : Type} (lower : Char → Char) (q : List (String × String))
    (C : List (Employee F)) :
    matchLoop lower q C = C.filter (fun e =>
      containsSubstring lower e.FirstName (queryGet q "firstName") &&
      containsSubstring lower e.LastName (queryGet q "lastName") &&
      containsSubstring lower e.Email (queryGet q "email") &&
      containsSubstring lower e.Role (queryGet q "role")) := by
  induction C with
  | nil => rfl
  | cons e rest ih =>
    unfold matchLoop
    rw [ih, List.filter_cons]

/-- C9. When the load succeeds with `C`, the search handler answers with the
records of `C`, in the order of `C`, that pass the four tests of
`containsSubstring`, one per pattern of the query and on the field of the same
name; such a test holds exactly when the pattern occurs in the field, case
ignored; with the four patterns empty or absent the answer is `C` itself. -/
theorem handleSearchEmployees_filters (sc : Strconv) (lower : Char → Char)
    (q : List (String × String)) (fs : FileState) (C : List (Employee sc.Float64))
    (hload : getAllEmployees sc fs = .ok C) :
    handleSearchEmployees sc lower q fs = .employees (C.filter (fun e =>
      containsSubstring lower e.FirstName (queryGet q "firstName") &&
      containsSubstring lower e.LastName (queryGet q "lastName") &&
      containsSubstring lower e.Email (queryGet q "email") &&
      containsSubstring lower e.Role (queryGet q "role"))) ∧
    (∀ s pattern, containsSubstring lower s pattern = true ↔
      occursIgnoringCase lower pattern s) ∧
    (queryGet q "firstName" = "" → queryGet q "lastName" = "" → queryGet q "email" = "" →
      queryGet q "role" = "" → handleSearchEmployees sc lower q fs = .employees C) := by
  have hsearch : handleSearchEmployees sc lower q fs = .employees (matchLoop lower q C) := by
    simp only [handleSearchEmployees, hload]
  refine ⟨?_, containsSubstring_iff lower, ?_⟩
  · rw [hsearch, matchLoop_eq_filter]
  · intro h1 h2 h3 h4
    rw [hsearch, matchLoop_eq_filter, h1, h2, h3, h4]
    simp [containsSubstring_empty]

/-- C9, witness: the query `lastName=DOE` on the file of `ann` and `bob`. -/
theorem handleSearchEmployees_filters_witness :
    (handleSearchEmployees decimalStrconv asciiLower [("lastName", "DOE")] (some annBobFile)
      = .employees ([ann, bob].filter (fun e =>
        containsSubstring asciiLower e.FirstName (queryGet [("lastName", "DOE")] "firstName") &&
        containsSubstring asciiLower e.LastName (queryGet [("lastName", "DOE")] "lastName") &&
        containsSubstring asciiLower e.Email (queryGet [("lastName", "DOE")] "email") &&
        containsSubstring asciiLower e.Role (queryGet [("lastName", "DOE")] "role"))) ∧
      (∀ s pattern, containsSubstring asciiLower s pattern = true ↔
        occursIgnoringCase asciiLower pattern s) ∧
      (queryGet [("lastName", "DOE")] "firstName" = "" →
        queryGet [("lastName", "DOE")] "lastName" = "" →
        queryGet [("lastName", "DOE")] "email" = "" →
        queryGet [("lastName", "DOE")] "role" = "" →
        handleSearchEmployees decimalStrconv asciiLower [("lastName", "DOE")] (some annBobFile)
          = .employees [ann, bob])) ∧
    handleSearchEmployees decimalStrconv asciiLower [("lastName", "DOE")] (some annBobFile)
      = .employees [bob] :=
  ⟨handleSearchEmployees_filters decimalStrconv asciiLower [("lastName", "DOE")]
    (some annBobFile) [ann, bob] (by rfl), by rfl⟩

/-! ## Rows with too few fields -/

/-- C10, the code at the failing input. On the file made of the header, a row
of two fields and the record of `bob`, `ReadAll` rejects the second record for
its field count and `getAllEmployees` returns that error: the short row is not
skipped and no employee is returned. -/
theorem getAllEmployees_short_row_fails (sc : Strconv) :
    csvReadAll shortRowFile = .error (.fieldCount 1) ∧
    getAllEmployees sc (some shortRowFile) = .error (.fieldCount 1) :=
  ⟨rfl, rfl⟩

/-! ## Salaries that do not parse -/

theorem decodeRecord_of_parse (sc : Strconv) (row : Record) (x : sc.Float64)
    (hx : sc.ParseFloat (row.getD 7 "") = .ok x) :
    decodeRecord sc row = .ok
      { ID := (Atoi (row.getD 0 "")).1, FirstName := row.getD 1 "", LastName := row.getD 2 "",
        Email := row.getD 3 "", Password := row.getD 4 "", PhoneNo := row.getD 5 "",
        Role := row.getD 6 "", Salary := x, Birthdate := row.getD 8 "" } := by
  unfold decodeRecord
  simp only [hx]

theorem clampInt_error (neg : Bool) (un : Nat) :
    (clampInt neg un).2 = none ∨
    ((clampInt neg un).2 = some .outOfRange ∧
      ((clampInt neg un).1 = 9223372036854775807 ∨
        (clampInt neg un).1 = -9223372036854775808)) := by
  unfold clampInt
  split
  · right
    exact ⟨rfl, Or.inl (by simp [intCutoff])⟩
  · split
    · right
      exact ⟨rfl, Or.inr (by simp [intCutoff])⟩
    · left
      rfl

theorem ParseInt_error_value (s : List Char) :
    ((ParseInt s).2 = some .invalidSyntax → (ParseInt s).1 = 0) ∧
    ((ParseInt s).2 = some .outOfRange →
      (ParseInt s).1 = 9223372036854775807 ∨ (ParseInt s).1 = -9223372036854775808) := by
  cases s with
  | nil => exact ⟨fun _ => rfl, fun h => (by cases h)⟩
  | cons c cs =>
    simp only [ParseInt]
    generalize ParseUint (if c = '+' ∨ c = '-' then cs else c :: cs) = p
    obtain ⟨un, e⟩ := p
    have hclamp : ((clampInt (decide (c = '-')) un).2 = some .invalidSyntax →
          (clampInt (decide (c = '-')) un).1 = 0) ∧
        ((clampInt (decide (c = '-')) un).2 = some .outOfRange →
          (clampInt (decide (c = '-')) un).1 = 9223372036854775807 ∨
            (clampInt (decide (c = '-')) un).1 = -9223372036854775808) := by
      rcases clampInt_error (decide (c = '-')) un with h | ⟨h, hv⟩
      · exact ⟨fun h2 => (by rw [h] at h2; cases h2), fun h2 => (by rw [h] at h2; cases h2)⟩
      · exact ⟨fun h2 => (by rw [h] at h2; cases h2), fun _ => hv⟩
    cases e with
    | none => exact hclamp
    | some k =>
      cases k with
      | invalidSyntax => exact ⟨fun _ => rfl, fun h => (by cases h)⟩
      | outOfRange => exact hclamp

/-- The value that `Atoi` returns with an error: 0 with a syntax error, the
largest or the smallest `int` with a range error. -/
theorem Atoi_error_value (s : String) :
    ((Atoi s).2 = some .invalidSyntax → (Atoi s).1 = 0) ∧
    ((Atoi s).2 = some .outOfRange →
      (Atoi s).1 = 9223372036854775807 ∨ (Atoi s).1 = -9223372036854775808) :=
  ParseInt_error_value s.data

/-- C12, counterexample. The record of `ann` with twenty digits 9 as its id has
9 fields and a salary that parses; its column 0 does not parse as an integer
(range error) and the record decoded from it has the id 9223372036854775807,
not 0. -/
theorem decodeRecord_out_of_range_id :
    csvScan bigIdFile = ([header, bigIdRecord], none) ∧
    bigIdRecord.length = 9 ∧
    decimalStrconv.ParseFloat (bigIdRecord.getD 7 "") = .ok (whole 50000 (by decide)) ∧
    (Atoi (bigIdRecord.getD 0 "")).2 = some .outOfRange ∧
    getAllEmployees decimalStrconv (some bigIdFile)
      = .ok [{ ann with ID := 9223372036854775807 }] ∧
    (9223372036854775807 : Int) ≠ 0 := by
  refine ⟨by decide, rfl, rfl, by decide, rfl, by decide⟩

/-- C12, amended. For every row of 9 or more fields with a salary that parses
whose column 0 does not parse as an integer, the load does not fail because of
the row: the row is decoded to a record and the load goes on with the rows
after it. The id of the record is 0 when `Atoi` reports a syntax error, and the
largest or the smallest `int` when it reports a range error. -/
theorem decodeLoop_malformed_id (sc : Strconv) (row : Record) (rest : List Record)
    (x : sc.Float64) (err : NumError)
    (h9 : 9 ≤ row.length) (hx : sc.ParseFloat (row.getD 7 "") = .ok x)
    (hid : (Atoi (row.getD 0 "")).2 = some err) :
    ∃ e, decodeRecord sc row = .ok e ∧
      decodeLoop sc (row :: rest)
        = (match decodeLoop sc rest with
           | .error err => .error err
           | .ok employees => .ok (e :: employees)) ∧
      (err = .invalidSyntax → e.ID = 0) ∧
      (err = .outOfRange → e.ID = 9223372036854775807 ∨ e.ID = -9223372036854775808) := by
  have hdec := decodeRecord_of_parse sc row x hx
  have hval := Atoi_error_value (row.getD 0 "")
  have hlt : ¬ row.length < 9 := by omega
  refine ⟨_, hdec, ?_, ?_, ?_⟩
  · conv_lhs => unfold decodeLoop
    simp only [hlt, if_false, hdec]
  · intro he
    exact hval.1 (by rw [hid, he])
  · intro he
    exact hval.2 (by rw [hid, he])

/-- C12, witness: the record of `ann` with the id `abc`. -/
theorem decodeLoop_malformed_id_witness :
    ∃ e, decodeRecord decimalStrconv textIdRecord = .ok e ∧
      decodeLoop decimalStrconv (textIdRecord :: [bobRecord])
        = (match decodeLoop decimalStrconv [bobRecord] with
           | .error err => .error err
           | .ok employees => .ok (e :: employees)) ∧
      (NumError.invalidSyntax = .invalidSyntax → e.ID = 0) ∧
      (NumError.invalidSyntax = .outOfRange →
        e.ID = 9223372036854775807 ∨ e.ID = -9223372036854775808) :=
  decodeLoop_malformed_id decimalStrconv textIdRecord [bobRecord] (whole 50000 (by decide))
    .invalidSyntax (by decide) (by rfl) (by decide)

/-! ## Statuses and bodies of the handlers -/

/-- C13, the code at the failing input. On the file of `ann` and `bob`, where
no record has id 3, the handler of `GET /employees/3` answers 404 while the
handlers of `PATCH /employees/3` (with any decoded body) and of
`DELETE /employees/3` answer 500 with the not-found error of the store, and
leave the file as it is. -/
theorem notFound_status_of_handlers (m : List (String × Value decimalStrconv.Float64)) :
    handleViewEmployeeByID decimalStrconv "3" (some annBobFile)
      = .failureText 404 "Employee not found" ∧
    handleUpdateEmployee decimalStrconv "3" (some m) (some annBobFile)
      = (.failure 500 (.errorf "employee with ID 3 not found"), some annBobFile) ∧
    handleDeleteEmployee decimalStrconv "3" (some annBobFile)
      = (.failure 500 (.errorf "employee with ID 3 not found"), some annBobFile) ∧
    statusCode (handleUpdateEmployee decimalStrconv "3" (some m) (some annBobFile)).1 = 500 ∧
    statusCode (handleDeleteEmployee decimalStrconv "3" (some annBobFile)).1 = 500 :=
  ⟨rfl, rfl, rfl, rfl, rfl⟩

theorem Itoa_ne_ID (i : Int) : Itoa i ≠ "ID" := by
  intro h
  cases i with
  | ofNat n =>
    obtain ⟨d, cs, hd, he⟩ := formatUint_head n
    have h2 : formatUint n = ['I', 'D'] := congrArg String.data h
    rw [he] at h2
    have h3 : digitChar d = 'I' := (List.cons.inj h2).1
    interval_cases d <;> revert h3 <;> decide
  | negSucc n =>
    have h2 : '-' :: formatUint (n + 1) = ['I', 'D'] := congrArg String.data h
    have h3 : '-' = 'I' := (List.cons.inj h2).1
    revert h3
    decide

/-- C14, the code at the failing input. On a file that exists and has no row,
`createEmployee` of any candidate returns `nil` and leaves a file whose only
row is the candidate's record, which is not the header: the header is in no
row of the file, and the following load skips the candidate's row and returns
the empty collection. -/
theorem createEmployee_on_empty_file_writes_no_header (sc : Strconv)
    (e : Employee sc.Float64) :
    createEmployee sc e (some []) = (none, some (formatRecord (encodeRecord sc e))) ∧
    csvScan (formatRecord (encodeRecord sc e)) = ([(encodeRecord sc e).map readBack], none) ∧
    header ∉ [(encodeRecord sc e).map readBack] ∧
    getAllEmployees sc (some (formatRecord (encodeRecord sc e))) = .ok [] := by
  have hscan : csvScan (formatRecord (encodeRecord sc e))
      = ([(encodeRecord sc e).map readBack], none) :=
    csvScan_append [] [] _ _ _ (Or.inl rfl) rfl
  refine ⟨rfl, hscan, ?_, ?_⟩
  · intro h
    simp only [List.mem_singleton] at h
    have h0 : "ID" = readBack (Itoa e.ID) := by
      have := congrArg (fun r => r.getD 0 "") h
      simpa [header, encodeRecord] using this
    rw [readBack_Itoa] at h0
    exact Itoa_ne_ID e.ID h0.symm
  · rw [getAllEmployees_of_scan sc _ _ hscan (by simp [readAllLoop])]
    rfl

/-- C15. For a decoded employee with an empty `firstName`, `lastName`, `email`
or `role`, `handleCreateEmployee` answers 400 and leaves the file as it is
(`createEmployee` is not called); with the four of them non-empty it leaves the
file as `createEmployee` of the decoded employee leaves it and answers 200 when
that call returns `nil`, 500 with the error when it returns one. -/
theorem handleCreateEmployee_validates (sc : Strconv) (e : Employee sc.Float64)
    (fs : FileState) :
    ((e.FirstName = "" ∨ e.LastName = "" ∨ e.Email = "" ∨ e.Role = "") →
      handleCreateEmployee sc (some e) fs = (.failureText 400 "Missing required fields", fs)) ∧
    ((e.FirstName ≠ "" ∧ e.LastName ≠ "" ∧ e.Email ≠ "" ∧ e.Role ≠ "") →
      (handleCreateEmployee sc (some e) fs).2 = (createEmployee sc e fs).2 ∧
      ((createEmployee sc e fs).1 = none →
        (handleCreateEmployee sc (some e) fs).1 = .status 200) ∧
      (∀ err, (createEmployee sc e fs).1 = some err →
        (handleCreateEmployee sc (some e) fs).1 = .failure 500 err)) := by
  constructor
  · intro h
    simp only [handleCreateEmployee, h, if_true]
  · rintro ⟨h1, h2, h3, h4⟩
    have hn : ¬ (e.FirstName = "" ∨ e.LastName = "" ∨ e.Email = "" ∨ e.Role = "") := by
      simp [h1, h2, h3, h4]
    simp only [handleCreateEmployee, hn, if_false]
    rcases hc : createEmployee sc e fs with ⟨r, fs'⟩
    cases r with
    | none => exact ⟨rfl, fun _ => rfl, fun err h => by cases h⟩
    | some err0 =>
      refine ⟨rfl, fun h => (by cases h), fun err h => ?_⟩
      cases h
      rfl

/-- C15, witness: `ann` without a role is refused, `bob` is created. -/
theorem handleCreateEmployee_validates_witness :
    handleCreateEmployee decimalStrconv (some annNoRole) (some annFile)
      = (.failureText 400 "Missing required fields", some annFile) ∧
    ((handleCreateEmployee decimalStrconv (some bob) (some annFile)).2
        = (createEmployee decimalStrconv bob (some annFile)).2 ∧
      ((createEmployee decimalStrconv bob (some annFile)).1 = none →
        (handleCreateEmployee decimalStrconv (some bob) (some annFile)).1 = .status 200) ∧
      (∀ err, (createEmployee decimalStrconv bob (some annFile)).1 = some err →
        (handleCreateEmployee decimalStrconv (some bob) (some annFile)).1 = .failure 500 err)) :=
  ⟨(handleCreateEmployee_validates decimalStrconv annNoRole (some annFile)).1
      (Or.inr (Or.inr (Or.inr rfl))),
    (handleCreateEmployee_validates decimalStrconv bob (some annFile)).2
      ⟨by decide, by decide, by decide, by decide⟩⟩

theorem encodeEmployees_eq {F : Type} (unsupported : F → Bool) (es : List (Employee F)) :
    (es = [] → encodeEmployees unsupported es = some .null) ∧
    (es ≠ [] → (∀ e ∈ es, unsupported e.Salary = false) →
      encodeEmployees unsupported es = some (.array es)) ∧
    ((∃ e ∈ es, unsupported e.Salary = true) → encodeEmployees unsupported es = none) := by
  cases es with
  | nil =>
    refine ⟨fun _ => rfl, fun h => absurd rfl h, ?_⟩
    rintro ⟨e, he, _⟩
    cases he
  | cons e rest =>
    refine ⟨fun h => (by cases h), fun _ h => ?_, fun h => ?_⟩
    · have hany : (e :: rest).any (fun x => unsupported x.Salary) = false := by
        rw [List.any_eq_false]
        intro x hx
        rw [h x hx]
        simp
      simp only [encodeEmployees, hany]
      rfl
    · have hany : (e :: rest).any (fun x => unsupported x.Salary) = true := by
        rw [List.any_eq_true]
        exact h
      simp only [encodeEmployees, hany]
      rfl

/-- C16, counterexample. On a file with the header alone the load returns no
employee and `handleGetAllEmployees` writes the JSON text `null`, not an empty
array; so does `handleSearchEmployees` on the file of `ann` and `bob` for the
query `firstName=zed`, which no record matches. -/
theorem empty_result_is_written_null :
    getAllEmployees decimalStrconv (some headerFile) = .ok [] ∧
    jsonBody (fun _ => false) (handleGetAllEmployees decimalStrconv (some headerFile))
      = some .null ∧
    jsonBody (fun _ => false) (handleGetAllEmployees decimalStrconv (some headerFile))
      ≠ some (.array []) ∧
    handleSearchEmployees decimalStrconv asciiLower [("firstName", "zed")] (some annBobFile)
      = .employees [] ∧
    jsonBody (fun _ => false)
      (handleSearchEmployees decimalStrconv asciiLower [("firstName", "zed")]
        (some annBobFile)) = some .null := by
  refine ⟨rfl, rfl, ?_, rfl, rfl⟩
  intro h
  have h2 : jsonBody (fun _ => false)
      (handleGetAllEmployees decimalStrconv (some headerFile)) = some .null := rfl
  rw [h2] at h
  cases h

/-- C16, amended. When the load succeeds with `C`, `handleGetAllEmployees`
writes the JSON array of the employees of `C` when `C` has an element and every
salary is a value that `encoding/json` supports, the JSON text `null` when `C`
has none, and no body when some salary is unsupported (NaN or an infinity);
`handleSearchEmployees` does the same with the matching employees. -/
theorem list_and_search_bodies (sc : Strconv) (unsupported : sc.Float64 → Bool)
    (lower : Char → Char)
    (q : List (String × String)) (fs : FileState) (C : List (Employee sc.Float64))
    (hload : getAllEmployees sc fs = .ok C) :
    (C = [] → jsonBody unsupported (handleGetAllEmployees sc fs) = some .null) ∧
    (C ≠ [] → (∀ e ∈ C, unsupported e.Salary = false) →
      jsonBody unsupported (handleGetAllEmployees sc fs) = some (.array C)) ∧
    ((∃ e ∈ C, unsupported e.Salary = true) →
      jsonBody unsupported (handleGetAllEmployees sc fs) = none) ∧
    (matchLoop lower q C = [] →
      jsonBody unsupported (handleSearchEmployees sc lower q fs) = some .null) ∧
    (matchLoop lower q C ≠ [] → (∀ e ∈ matchLoop lower q C, unsupported e.Salary = false) →
      jsonBody unsupported (handleSearchEmployees sc lower q fs)
        = some (.array (matchLoop lower q C))) ∧
    ((∃ e ∈ matchLoop lower q C, unsupported e.Salary = true) →
      jsonBody unsupported (handleSearchEmployees sc lower q fs) = none) := by
  have hl : jsonBody unsupported (handleGetAllEmployees sc fs)
      = encodeEmployees unsupported C := by
    simp only [handleGetAllEmployees, hload, jsonBody]
  have hs : jsonBody unsupported (handleSearchEmployees sc lower q fs)
      = encodeEmployees unsupported (matchLoop lower q C) := by
    simp only [handleSearchEmployees, hload, jsonBody]
  rw [hl, hs]
  exact ⟨(encodeEmployees_eq unsupported C).1, (encodeEmployees_eq unsupported C).2.1,
    (encodeEmployees_eq unsupported C).2.2, (encodeEmployees_eq unsupported _).1,
    (encodeEmployees_eq unsupported _).2.1, (encodeEmployees_eq unsupported _).2.2⟩

/-- C16, witness: the list of the file of `ann` and `bob` and the search for
the last name `doe` are written as arrays when every salary is supported, and
the list has no body when the salary 50000 is taken as unsupported. -/
theorem list_and_search_bodies_witness :
    jsonBody (fun _ => false) (handleGetAllEmployees decimalStrconv (some annBobFile))
      = some (.array [ann, bob]) ∧
    jsonBody (fun _ => false)
      (handleSearchEmployees decimalStrconv asciiLower [("lastName", "doe")]
        (some annBobFile))
      = some (.array (matchLoop asciiLower [("lastName", "doe")] [ann, bob])) ∧
    jsonBody (fun x : WholeSalary => decide (x.val = 50000))
      (handleGetAllEmployees decimalStrconv (some annBobFile)) = none :=
  ⟨(list_and_search_bodies decimalStrconv (fun _ => false) asciiLower [("lastName", "doe")]
      (some annBobFile) [ann, bob] (by rfl)).2.1 (by simp) (fun _ _ => rfl),
    (list_and_search_bodies decimalStrconv (fun _ => false) asciiLower [("lastName", "doe")]
      (some annBobFile) [ann, bob] (by rfl)).2.2.2.2.1 (by
        have h : matchLoop asciiLower [("lastName", "doe")] [ann, bob] = [bob] := rfl
        rw [h]
        simp) (fun _ _ => rfl),
    (list_and_search_bodies decimalStrconv (fun x : WholeSalary => decide (x.val = 50000))
      asciiLower [] (some annBobFile) [ann, bob] (by rfl)).2.2.1
        ⟨ann, by simp, by decide⟩⟩

/-- C17, counterexample. On the file of `ann` and `bob` the search with the
patterns (`doe`, empty, empty, empty) returns no record, while `bob` is the
record whose last name contains `doe`, case ignored. -/
theorem search_first_pattern_is_not_lastName :
    handleSearchEmployees decimalStrconv asciiLower (searchQuery "doe" "" "" "")
      (some annBobFile) = .employees [] ∧
    [ann, bob].filter (fun e => containsSubstring asciiLower e.LastName "doe") = [bob] :=
  ⟨rfl, rfl⟩

/-- C17, amended. When the load succeeds with `C`, the search with the four
patterns (`doe`, empty, empty, empty), in the order (firstName, lastName,
email, role), returns the records of `C` whose first name contains `doe`, case
ignored, in the order of `C`. -/
theorem search_first_pattern_is_firstName (sc : Strconv) (lower : Char → Char)
    (fs : FileState) (C : List (Employee sc.Float64))
    (hload : getAllEmployees sc fs = .ok C) :
    handleSearchEmployees sc lower (searchQuery "doe" "" "" "") fs
      = .employees (C.filter (fun e => containsSubstring lower e.FirstName "doe")) ∧
    ∀ e : Employee sc.Float64, containsSubstring lower e.FirstName "doe" = true ↔
      occursIgnoringCase lower "doe" e.FirstName := by
  have h1 : queryGet (searchQuery "doe" "" "" "") "firstName" = "doe" := by decide
  have h2 : queryGet (searchQuery "doe" "" "" "") "lastName" = "" := by decide
  have h3 : queryGet (searchQuery "doe" "" "" "") "email" = "" := by decide
  have h4 : queryGet (searchQuery "doe" "" "" "") "role" = "" := by decide
  refine ⟨?_, fun e => containsSubstring_iff lower _ _⟩
  simp only [handleSearchEmployees, hload]
  rw [matchLoop_eq_filter, h1, h2, h3, h4]
  simp [containsSubstring_empty]

/-- C17, witness: of `ann`, `bob` and `cid`, the search returns `cid`, whose
first name is `Doe`. -/
theorem search_first_pattern_is_firstName_witness :
    (handleSearchEmployees decimalStrconv asciiLower (searchQuery "doe" "" "" "")
        (some annBobCidFile)
      = .employees ([ann, bob, cid].filter
          (fun e => containsSubstring asciiLower e.FirstName "doe")) ∧
      ∀ e : Employee decimalStrconv.Float64,
        containsSubstring asciiLower e.FirstName "doe" = true ↔
          occursIgnoringCase asciiLower "doe" e.FirstName) ∧
    [ann, bob, cid].filter (fun e => containsSubstring asciiLower e.FirstName "doe") = [cid] :=
  ⟨search_first_pattern_is_firstName decimalStrconv asciiLower
    (some annBobCidFile) [ann, bob, cid] (by rfl), rfl⟩

/-! ## Failed lookups -/

/-- C18. Whenever `updateEmployee` or `deleteEmployee` returns an error, the
file state is the one before the call, and the error is the one of the load or
the not-found error for an id that no loaded record has. -/
theorem failed_lookup_leaves_file (sc : Strconv) (i : Int)
    (m : List (String × Value sc.Float64)) (fs : FileState) :
    (∀ err, (updateEmployee sc i m fs).1 = some err →
      (updateEmployee sc i m fs).2 = fs ∧
      (getAllEmployees sc fs = .error err ∨
        ∃ C, getAllEmployees sc fs = .ok C ∧ (∀ r ∈ C, r.ID ≠ i) ∧ err = notFoundError i)) ∧
    (∀ err, (deleteEmployee sc i fs).1 = some err →
      (deleteEmployee sc i fs).2 = fs ∧
      (getAllEmployees sc fs = .error err ∨
        ∃ C, getAllEmployees sc fs = .ok C ∧ (∀ r ∈ C, r.ID ≠ i) ∧ err = notFoundError i)) := by
  constructor
  · intro err h
    cases hload : getAllEmployees sc fs with
    | error e0 =>
      have hu : updateEmployee sc i m fs = (some e0, fs) := by
        simp only [updateEmployee, hload]
      rw [hu] at h ⊢
      cases h
      exact ⟨rfl, Or.inl rfl⟩
    | ok C =>
      cases hk : findIndex C i with
      | none =>
        have hu : updateEmployee sc i m fs = (some (notFoundError i), fs) := by
          simp only [updateEmployee, hload, hk]
        rw [hu] at h ⊢
        cases h
        exact ⟨rfl, Or.inr ⟨C, rfl, (findIndex_eq_none_iff C i).mp hk, rfl⟩⟩
      | some k =>
        have hu : (updateEmployee sc i m fs).1 = none := by
          simp only [updateEmployee, hload, hk]
        rw [hu] at h
        cases h
  · intro err h
    cases hload : getAllEmployees sc fs with
    | error e0 =>
      have hd : deleteEmployee sc i fs = (some e0, fs) := by
        simp only [deleteEmployee, hload]
      rw [hd] at h ⊢
      cases h
      exact ⟨rfl, Or.inl rfl⟩
    | ok C =>
      cases hk : findIndex C i with
      | none =>
        have hd : deleteEmployee sc i fs = (some (notFoundError i), fs) := by
          simp only [deleteEmployee, hload, hk]
        rw [hd] at h ⊢
        cases h
        exact ⟨rfl, Or.inr ⟨C, rfl, (findIndex_eq_none_iff C i).mp hk, rfl⟩⟩
      | some k =>
        have hd : (deleteEmployee sc i fs).1 = none := by
          simp only [deleteEmployee, hload, hk]
        rw [hd] at h
        cases h

/-- C18, witness: the update and the deletion of id 3 in the file of `ann` and
`bob`, and the deletion of id 1 in a file whose load fails. -/
theorem failed_lookup_leaves_file_witness :
    ((updateEmployee decimalStrconv 3 [("role", .str "X")] (some annBobFile)).2
        = some annBobFile ∧
      (getAllEmployees decimalStrconv (some annBobFile) = .error (notFoundError 3) ∨
        ∃ C, getAllEmployees decimalStrconv (some annBobFile) = .ok C ∧
          (∀ r ∈ C, r.ID ≠ 3) ∧ notFoundError 3 = notFoundError 3)) ∧
    ((deleteEmployee decimalStrconv 1 (some shortRowFile)).2 = some shortRowFile ∧
      (getAllEmployees decimalStrconv (some shortRowFile) = .error (.fieldCount 1) ∨
        ∃ C, getAllEmployees decimalStrconv (some shortRowFile) = .ok C ∧
          (∀ r ∈ C, r.ID ≠ 1) ∧ GoError.fieldCount 1 = notFoundError 1)) :=
  ⟨(failed_lookup_leaves_file decimalStrconv 3 [("role", .str "X")] (some annBobFile)).1
      (notFoundError 3) (by rfl),
    (failed_lookup_leaves_file decimalStrconv 1 [] (some shortRowFile)).2
      (.fieldCount 1) (by rfl)⟩

/-! ## Distinct ids -/

theorem modifyAt_ids {F : Type} (f : Employee F → Employee F) (hf : ∀ a, (f a).ID = a.ID)
    (k : Nat) (es : List (Employee F)) :
    (modifyAt f k es).map (fun e => e.ID) = es.map (fun e => e.ID) := by
  induction es generalizing k with
  | nil => simp [modifyAt]
  | cons a rest ih =>
    cases k with
    | zero => simp [modifyAt, hf]
    | succ k => simp [modifyAt, ih]

/-- The loop of `updateEmployee` over the entries changes no id. -/
theorem applyUpdates_ids {F : Type} (m : List (String × Value F)) (k : Nat)
    (es : List (Employee F)) :
    (applyUpdates m k es).map (fun e => e.ID) = es.map (fun e => e.ID) := by
  unfold applyUpdates
  induction m generalizing es with
  | nil => rfl
  | cons kv m ih =>
    simp only [List.foldl_cons]
    rw [ih, modifyAt_ids _ (applyField_ID kv.1 kv.2)]

theorem isGoInt_of_ids {F : Type} (C C' : List (Employee F))
    (h : ∀ e ∈ C, isGoInt e.ID)
    (hids : ∀ x ∈ C'.map (fun e => e.ID), x ∈ C.map (fun e => e.ID)) :
    ∀ e ∈ C', isGoInt e.ID := by
  intro e he
  have h1 : e.ID ∈ C.map (fun e => e.ID) := hids _ (List.mem_map.mpr ⟨e, he, rfl⟩)
  obtain ⟨e0, he0, hid⟩ := List.mem_map.mp h1
  have := h e0 he0
  rw [hid] at this
  exact this

theorem distinctIds_append_free {F : Type} (C : List (Employee F)) (e : Employee F)
    (hd : distinctIds C) (hfree : ∀ r ∈ C, r.ID ≠ e.ID) : distinctIds (C ++ [e]) := by
  unfold distinctIds at hd ⊢
  rw [List.map_append, List.nodup_append]
  refine ⟨hd, by simp, ?_⟩
  intro a ha hb
  simp only [List.map_cons, List.map_nil, List.mem_singleton] at hb
  obtain ⟨r, hr, hra⟩ := List.mem_map.mp ha
  exact hfree r hr (hra.trans hb)

theorem map_readBackEmployee_ids {F : Type} (es : List (Employee F)) :
    (es.map readBackEmployee).map (fun e => e.ID) = es.map (fun e => e.ID) := by
  rw [List.map_map]
  rfl

/-- The load that follows a `createEmployee` with a free id, on a file that
ends with a newline or is empty: an error of `ReadAll`, or the collection with
the candidate at the end, or no employee when the file had no row. -/
theorem load_after_append (sc : Strconv) (hfmt : plainFloats sc) (file : File)
    (R : List Record) (C : List (Employee sc.Float64)) (e : Employee sc.Float64)
    (hint : isGoInt e.ID) (hclosed : closedFile file) (hscan : csvScan file = (R, none))
    (hdec : decodeLoop sc (R.drop 1) = .ok C) :
    (∃ err, getAllEmployees sc (some (file ++ formatRecord (encodeRecord sc e)))
      = .error err) ∨
    getAllEmployees sc (some (file ++ formatRecord (encodeRecord sc e)))
      = .ok (C ++ [readBackEmployee e]) ∨
    getAllEmployees sc (some (file ++ formatRecord (encodeRecord sc e))) = .ok [] := by
  have hscan2 : csvScan (file ++ formatRecord (encodeRecord sc e))
      = (R ++ [encodeRecord sc (readBackEmployee e)], none) := by
    have := csvScan_append file R (Itoa e.ID) e.FirstName
      [e.LastName, e.Email, e.Password, e.PhoneNo, e.Role, sc.FormatFloat e.Salary, e.Birthdate]
      (closedFile_cases file hclosed) hscan
    rw [← encodeRecord_readBack sc hfmt e]
    exact this
  cases hread : readAllLoop 0 0 (R ++ [encodeRecord sc (readBackEmployee e)]) with
  | error err =>
    left
    exact ⟨err, by simp only [getAllEmployees, csvReadAll, hscan2, hread]⟩
  | ok rs =>
    right
    have := readAllLoop_ok _ _ _ _ hread
    subst this
    rw [getAllEmployees_of_scan sc _ _ hscan2 hread]
    cases R with
    | nil =>
      right
      rfl
    | cons first rest =>
      left
      simp only [List.cons_append, List.drop_succ_cons, List.drop_zero] at hdec ⊢
      exact decodeLoop_append sc rest _ C _ hdec (by rw [encodeRecord_length]; omega)
        (decodeRecord_encodeRecord sc _ hint)

/-- C19, counterexample. The file of rows of 10 fields loads as `[ann]`, whose
ids are distinct; `createEmployee` of `bob` returns `nil` and adds a row of 9
fields, and the following load returns the field-count error of `ReadAll`, no
collection. -/
theorem createEmployee_then_load_fails :
    getAllEmployees decimalStrconv (some tenColumnFile) = .ok [ann] ∧
    distinctIds [ann] ∧
    createEmployee decimalStrconv bob (some tenColumnFile)
      = (none, some (tenColumnFile ++ bobLine.data)) ∧
    getAllEmployees decimalStrconv (createEmployee decimalStrconv bob (some tenColumnFile)).2
      = .error (.fieldCount 2) := by
  refine ⟨rfl, ?_, rfl, rfl⟩
  simp [distinctIds]

/-- On a file that ends with a CR alone after its last newline the row that
`createEmployee` adds starts with that CR: the file loads as one employee of
id 0, `createEmployee` of `bob`, whose id 2 is free, returns `nil`, and the
following load returns two employees of id 0, the id of the added row being
read from the text CR `2`. -/
theorem createEmployee_after_lone_cr_repeats_id :
    ¬ closedFile loneCrFile ∧
    getAllEmployees decimalStrconv (some loneCrFile) = .ok [{ ann with ID := 0 }] ∧
    distinctIds [{ ann with ID := 0 }] ∧
    (createEmployee decimalStrconv bob (some loneCrFile)).1 = none ∧
    getAllEmployees decimalStrconv (createEmployee decimalStrconv bob (some loneCrFile)).2
      = .ok [{ ann with ID := 0 }, { bob with ID := 0 }] ∧
    ¬ distinctIds [{ ann with ID := 0 }, { bob with ID := 0 }] := by
  refine ⟨by decide, rfl, ?_, rfl, rfl, ?_⟩
  · simp [distinctIds]
  · simp [distinctIds]

/-- C19, amended. When the load succeeds with a collection `C` of distinct
ids: after a successful `createEmployee` (the candidate's id a Go `int`) on a
file that ends with a newline every collection that the load returns has
distinct ids, and the load does return one when the first row of the file has
exactly 9 fields; after a successful `updateEmployee`, with any mapping, the
load returns a collection with the ids of `C` in their order, hence distinct;
after a successful `deleteEmployee` the load returns a collection of distinct
ids. -/
theorem distinct_ids_preserved (sc : Strconv) (hfmt : plainFloats sc) (fs : FileState)
    (C : List (Employee sc.Float64))
    (hload : getAllEmployees sc fs = .ok C) (hd : distinctIds C) :
    (∀ e file, isGoInt e.ID → (createEmployee sc e fs).1 = none → fs = some file →
      closedFile file →
      (∀ C', getAllEmployees sc (createEmployee sc e fs).2 = .ok C' → distinctIds C') ∧
      (∀ first rest, csvScan file = (first :: rest, none) → first.length = 9 →
        ∃ C', getAllEmployees sc (createEmployee sc e fs).2 = .ok C' ∧ distinctIds C')) ∧
    (∀ i m, (updateEmployee sc i m fs).1 = none →
      ∃ C', getAllEmployees sc (updateEmployee sc i m fs).2 = .ok C' ∧
        C'.map (fun e => e.ID) = C.map (fun e => e.ID) ∧ distinctIds C') ∧
    (∀ i, (deleteEmployee sc i fs).1 = none →
      ∃ C', getAllEmployees sc (deleteEmployee sc i fs).2 = .ok C' ∧ distinctIds C') := by
  obtain ⟨file, R, hfs, hscan, hread, hdec, hints⟩ := getAllEmployees_ok sc _ C hload
  subst hfs
  refine ⟨?_, ?_, ?_⟩
  · intro e file' hint _ hfile hclosed
    cases hfile
    cases hfree : idIsFree C e.ID with
    | false =>
      have hc : createEmployee sc e (some file) = (none, some file) := by
        simp [createEmployee, hload, hfree]
      rw [hc]
      refine ⟨?_, fun _ _ _ _ => ⟨C, hload, hd⟩⟩
      intro C' h
      rw [hload] at h
      cases h
      exact hd
    | true =>
      have hfree2 := (idIsFree_iff C e.ID).mp hfree
      have hc : createEmployee sc e (some file)
          = (none, some (file ++ formatRecord (encodeRecord sc e))) := by
        simp [createEmployee, hload, hfree, csvWrite]
      rw [hc]
      have hdist : distinctIds (C ++ [readBackEmployee e]) :=
        distinctIds_append_free C _ hd hfree2
      have hcases := load_after_append sc hfmt file R C e hint hclosed hscan hdec
      constructor
      · intro C' h
        rcases hcases with ⟨err, herr⟩ | hok | hnil
        · rw [herr] at h
          cases h
        · rw [hok] at h
          cases h
          exact hdist
        · rw [hnil] at h
          cases h
          simp [distinctIds]
      · intro first rest hscan' h9
        rw [hscan] at hscan'
        cases hscan'
        have hpos : 0 < first.length := by omega
        have hlen := readAll_lengths first rest _ hpos hread
        have hscan2 : csvScan (file ++ formatRecord (encodeRecord sc e))
            = (first :: (rest ++ [encodeRecord sc (readBackEmployee e)]), none) := by
          have := csvScan_append file (first :: rest) (Itoa e.ID) e.FirstName
            [e.LastName, e.Email, e.Password, e.PhoneNo, e.Role, sc.FormatFloat e.Salary,
              e.Birthdate]
            (closedFile_cases file hclosed) hscan
          rw [← encodeRecord_readBack sc hfmt e]
          exact this
        have hread2 :
            readAllLoop 0 0 (first :: (rest ++ [encodeRecord sc (readBackEmployee e)]))
              = .ok (first :: (rest ++ [encodeRecord sc (readBackEmployee e)])) := by
          apply readAll_uniform _ _ hpos
          intro r hr
          rcases List.mem_append.mp hr with hr | hr
          · exact hlen r hr
          · simp only [List.mem_singleton] at hr
            rw [hr, encodeRecord_length, h9]
        refine ⟨C ++ [readBackEmployee e], ?_, hdist⟩
        rw [getAllEmployees_of_scan sc _ _ hscan2 hread2]
        simp only [List.drop_succ_cons, List.drop_zero] at hdec ⊢
        exact decodeLoop_append sc rest _ C _ hdec (by rw [encodeRecord_length]; omega)
          (decodeRecord_encodeRecord sc _ hint)
  · intro i m hm
    cases hk : findIndex C i with
    | none =>
      have hu : (updateEmployee sc i m (some file)).1 = some (notFoundError i) := by
        simp only [updateEmployee, hload, hk]
      rw [hu] at hm
      cases hm
    | some k =>
      have hu : updateEmployee sc i m (some file)
          = (none, some (rewriteFile sc (applyUpdates m k C))) := by
        simp only [updateEmployee, hload, hk]
      have hids := applyUpdates_ids m k C
      have hids2 : ((applyUpdates m k C).map readBackEmployee).map (fun e => e.ID)
          = C.map (fun e => e.ID) := by
        rw [map_readBackEmployee_ids, hids]
      rw [hu]
      refine ⟨(applyUpdates m k C).map readBackEmployee, ?_, hids2, ?_⟩
      · exact getAllEmployees_rewriteFile sc hfmt _
          (isGoInt_of_ids C _ hints (fun x hx => by rw [hids] at hx; exact hx))
      · unfold distinctIds
        rw [hids2]
        exact hd
  · intro i hm
    cases hk : findIndex C i with
    | none =>
      have hu : (deleteEmployee sc i (some file)).1 = some (notFoundError i) := by
        simp only [deleteEmployee, hload, hk]
      rw [hu] at hm
      cases hm
    | some k =>
      have hu : deleteEmployee sc i (some file)
          = (none, some (rewriteFile sc (C.eraseIdx k))) := by
        simp only [deleteEmployee, hload, hk]
      have hsub : (C.eraseIdx k).Sublist C := List.eraseIdx_sublist C k
      rw [hu]
      refine ⟨(C.eraseIdx k).map readBackEmployee, ?_, ?_⟩
      · exact getAllEmployees_rewriteFile sc hfmt _ (fun e he => hints e (hsub.subset he))
      · unfold distinctIds
        rw [map_readBackEmployee_ids]
        exact List.Nodup.sublist (hsub.map _) hd

/-- C19, witness: the file of `ann` and `bob`, the candidate `cid`, an update
with the key `id` and the deletion of id 1. -/
theorem distinct_ids_preserved_witness :
    ((∀ C', getAllEmployees decimalStrconv
          (createEmployee decimalStrconv cid (some annBobFile)).2 = .ok C' → distinctIds C') ∧
      (∀ first rest, csvScan annBobFile = (first :: rest, none) → first.length = 9 →
        ∃ C', getAllEmployees decimalStrconv
          (createEmployee decimalStrconv cid (some annBobFile)).2 = .ok C' ∧ distinctIds C')) ∧
    (∃ C', getAllEmployees decimalStrconv
        (updateEmployee decimalStrconv 1 [("id", .float64 (whole 2 (by decide)))]
          (some annBobFile)).2 = .ok C' ∧
      C'.map (fun e => e.ID) = [ann, bob].map (fun e => e.ID) ∧ distinctIds C') ∧
    (∃ C', getAllEmployees decimalStrconv (deleteEmployee decimalStrconv 1 (some annBobFile)).2
        = .ok C' ∧ distinctIds C') :=
  ⟨(distinct_ids_preserved decimalStrconv decimalStrconv_plain (some annBobFile) [ann, bob]
      (by rfl) (by simp [distinctIds, ann, bob])).1 cid annBobFile (by decide) (by rfl) rfl
      (by decide),
    (distinct_ids_preserved decimalStrconv decimalStrconv_plain (some annBobFile) [ann, bob]
      (by rfl) (by simp [distinctIds, ann, bob])).2.1 1 _ (by rfl),
    (distinct_ids_preserved decimalStrconv decimalStrconv_plain (some annBobFile) [ann, bob]
      (by rfl) (by simp [distinctIds, ann, bob])).2.2 1 (by rfl)⟩


end EmployeeAPI
